import Mathlib

/-!
# CHIP-8 interpreter core: embedding of `src/chip8.cpp`

The machine state of `chip8::vm` is a record; `fetch` and `execute` are state
transformers.  The source indexes `memory` and pops `stack` without any check,
so the transformers return `Option vm`: `none` marks exactly the places where
the C++ behaviour is undefined (a read outside the 4096 bytes, `top`/`pop` on
an empty stack).  Eight-bit and sixteen-bit stores are written with an
explicit `% 256` / `% 65536` wherever the stored value can leave the range.
-/

namespace chip8

/-! ## Data model -/

/-- Modelled from the spec: the constant `SCREEN_WIDTH` is declared in the header
`chip8.hpp`, which is absent; the framebuffer is a 64x32 row-major grid. -/
def SCREEN_WIDTH : Nat := 64

/-- Modelled from the spec: the constant `SCREEN_HEIGHT` is declared in the header
`chip8.hpp`, which is absent; the framebuffer is a 64x32 row-major grid. -/
def SCREEN_HEIGHT : Nat := 32

/-- Modelled from the spec: the record `instruction` is declared in the header
`chip8.hpp`, which is absent.  Its six fields, in the order of the structured
binding in `vm::execute`: `type`, `x`, `y`, `n` are nibbles, `nn` is the second
byte and `nnn` the low twelve bits of the word. -/
structure instruction where
  type : Fin 16
  x : Fin 16
  y : Fin 16
  n : Fin 16
  nn : Nat
  nnn : Nat

/-- Modelled from the spec: the constructor `instruction(b0, b1)` is declared in
the header `chip8.hpp`, which is absent.  `type` is the high nibble of the first
byte, `x` its low nibble, `y` the high nibble of the second byte, `n` its low
nibble, `nn` the entire second byte, `nnn` the low 12 bits of the 16-bit word. -/
def decode (b0 b1 : Nat) : instruction :=
  { type := ⟨b0 / 16 % 16, Nat.mod_lt _ (by decide)⟩
    x := ⟨b0 % 16, Nat.mod_lt _ (by decide)⟩
    y := ⟨b1 / 16 % 16, Nat.mod_lt _ (by decide)⟩
    n := ⟨b1 % 16, Nat.mod_lt _ (by decide)⟩
    nn := b1 % 256
    nnn := (256 * b0 + b1) % 4096 }

/-- The members of `chip8::vm` used by `fetch` and `execute`.  The member
declarations live in the absent header; their shapes follow the spec's data
model: 4096 bytes of memory, 16 eight-bit registers, a 16-bit index register
and program counter, a LIFO stack of saved program counters and 2048
framebuffer cells. -/
structure vm where
  memory : Fin 4096 → Nat
  V : Fin 16 → Nat
  index_reg : Nat
  program_counter : Nat
  stack : List Nat
  screen : Fin 2048 → Nat
  current_op : instruction

/-- Store to one register: `V[i] = v`. -/
def setV (V : Fin 16 → Nat) (i : Fin 16) (v : Nat) : Fin 16 → Nat :=
  fun j => if j = i then v else V j

/-- Unchecked `memory[a]`: defined only for `a < 4096`. -/
def read (memory : Fin 4096 → Nat) (a : Nat) : Option Nat :=
  if h : a < 4096 then some (memory ⟨a, h⟩) else none

/-- Conversion of an `int` to `uint8_t` (value modulo 256). -/
def wrap8 (i : Int) : Nat := (i % 256).toNat

/-! ## `vm::fetch` -/

/-- Embedding of `vm::fetch`: decode the two bytes at the program counter, then
advance the (16-bit) program counter by 2. -/
def fetch (s : vm) : Option vm :=
  match read s.memory s.program_counter, read s.memory (s.program_counter + 1) with
  | some b0, some b1 =>
    some { s with current_op := decode b0 b1
                  program_counter := (s.program_counter + 2) % 65536 }
  | _, _ => none

/-! ## `vm::execute` -/

/-- Flat framebuffer index of a sprite pixel:
`((x_coord + bit) + SCREEN_WIDTH * (y_coord + byte)) % 2048`. -/
def coords (x_coord y_coord byte bit : Nat) : Fin 2048 :=
  ⟨((x_coord + bit) + SCREEN_WIDTH * (y_coord + byte)) % 2048, Nat.mod_lt _ (by decide)⟩

/-- Body of the inner `for (bit ...)` loop of the `0xD` case. -/
def draw_pixel (x_coord y_coord byte sprite : Nat) (s : vm) (bit : Nat) : vm :=
  let d_pix := s.screen (coords x_coord y_coord byte bit)
  let s_pix := sprite &&& (0b10000000 >>> bit)
  if s_pix ≠ 0 then
    { s with screen := fun c =>
               if c = coords x_coord y_coord byte bit then s.screen c ^^^ 1 else s.screen c
             V := setV s.V 0xF d_pix }
  else s

/-- The inner loop `for (int bit = 0; bit < 8; bit++)`. -/
def draw_bits (x_coord y_coord byte sprite : Nat) (s : vm) : vm :=
  (List.range 8).foldl (draw_pixel x_coord y_coord byte sprite) s

/-- The outer loop `for (int byte = 0; byte < n; byte++)`; the first numeric
argument counts the iterations still to run (`n - byte`), the second is `byte`.
The loop is left at once when `y_coord >= SCREEN_HEIGHT`. -/
def draw_rows (x_coord y_coord : Nat) : Nat → Nat → vm → Option vm
  | 0, _, s => some s
  | k + 1, byte, s =>
    if y_coord ≥ SCREEN_HEIGHT then some s
    else
      match read s.memory (s.index_reg + byte) with
      | none => none
      | some sprite =>
        draw_rows x_coord y_coord k (byte + 1) (draw_bits x_coord y_coord byte sprite s)

/-- The `0xD` case of `vm::execute`. -/
def draw (s : vm) : Option vm :=
  let x_coord := s.V s.current_op.x
  let y_coord := s.V s.current_op.y
  draw_rows x_coord y_coord s.current_op.n.val 0 { s with V := setV s.V 0xF 0 }

/-- The `0x8` case of `vm::execute` (the inner `switch (n)`). -/
def execute_logical (s : vm) : vm :=
  let x := s.current_op.x
  let y := s.current_op.y
  match s.current_op.n.val with
  | 0x0 => { s with V := setV s.V x (s.V y) }
  | 0x1 => { s with V := setV s.V x (s.V x ||| s.V y) }
  | 0x2 => { s with V := setV s.V x (s.V x &&& s.V y) }
  | 0x3 => { s with V := setV s.V x (s.V x ^^^ s.V y) }
  | 0x4 =>
    let result := s.V x + s.V y
    if result > 255 then
      let V1 := setV s.V 0xF 1
      { s with V := setV V1 x ((result &&& 0xFF) % 256) }
    else
      { s with V := setV s.V x (result % 256) }
  | 0x5 =>
    let V1 := setV s.V 0xF (if s.V x > s.V y then 1 else 0)
    { s with V := setV V1 x (wrap8 ((V1 x : Int) - (V1 y : Int))) }
  | 0x6 =>
    let V1 := setV s.V 0xF (s.V x &&& 1)
    { s with V := setV V1 x (V1 x / 2) }
  | 0x7 =>
    let V1 := setV s.V 0xF (if s.V x < s.V y then 1 else 0)
    { s with V := setV V1 x (wrap8 ((V1 y : Int) - (V1 x : Int))) }
  | 0xE =>
    let V1 := setV s.V 0xF (s.V x &&& 0b10000000)
    { s with V := setV V1 x ((V1 x * 2) % 256) }
  | _ => s

/-- Embedding of `vm::execute`: dispatch on `type`, then (family 8) on `n`. -/
def execute (s : vm) : Option vm :=
  let x := s.current_op.x
  let y := s.current_op.y
  let nn := s.current_op.nn
  let nnn := s.current_op.nnn
  match s.current_op.type.val with
  | 0x0 =>
    if nn = 0xE0 then some { s with screen := fun _ => 0 }
    else if nn = 0xEE then
      match s.stack with
      | [] => none
      | top :: rest => some { s with program_counter := top, stack := rest }
    else some s
  | 0x1 => some { s with program_counter := nnn }
  | 0x2 => some { s with stack := s.program_counter :: s.stack, program_counter := nnn }
  | 0x3 =>
    if s.V x = nn then some { s with program_counter := (s.program_counter + 2) % 65536 }
    else some s
  | 0x4 =>
    if s.V x ≠ nn then some { s with program_counter := (s.program_counter + 2) % 65536 }
    else some s
  | 0x5 =>
    if s.V x = s.V y then some { s with program_counter := (s.program_counter + 2) % 65536 }
    else some s
  | 0x6 => some { s with V := setV s.V x nn }
  | 0x7 => some { s with V := setV s.V x ((s.V x + nn) % 256) }
  | 0x8 => some (execute_logical s)
  | 0x9 =>
    if s.V x ≠ s.V y then some { s with program_counter := (s.program_counter + 2) % 65536 }
    else some s
  | 0xA => some { s with index_reg := nnn }
  | 0xB => some { s with program_counter := (nnn + s.V 0) % 65536 }
  | 0xD => draw s
  | _ => some s

/-- Embedding of `vm::tick` without its pacing sleep: fetch, then execute. -/
def tick (s : vm) : Option vm :=
  match fetch s with
  | none => none
  | some s1 => execute s1

/-! ## Concrete states used to evaluate the definitions -/

/-- The zero-initialised machine. -/
def zero_vm : vm :=
  { memory := fun _ => 0
    V := fun _ => 0
    index_reg := 0
    program_counter := 0
    stack := []
    screen := fun _ => 0
    current_op := decode 0 0 }

/-- The zero machine with registers `V[i] = a`, `V[j] = b` (stored in this
order), `V[15] = f` stored first, and the word `b0 b1` decoded as the current
instruction. -/
def reg_vm (b0 b1 : Nat) (f : Nat) (i : Fin 16) (a : Nat) (j : Fin 16) (b : Nat) : vm :=
  { zero_vm with
    V := setV (setV (setV zero_vm.V 0xF f) i a) j b
    current_op := decode b0 b1 }

/-! ## Specification-side description of a draw -/

/-- One sprite pixel that is set: flip the cell and record its previous value in
`V[0xF]` (the two statements guarded by `if (s_pix)`). -/
def toggle (s : vm) (c : Fin 2048) : vm :=
  { s with screen := fun c1 => if c1 = c then s.screen c1 ^^^ 1 else s.screen c1
           V := setV s.V 0xF (s.screen c) }

/-- The sprite byte of row `r`: `memory[index_reg + r]` (0 outside the memory). -/
def sprite_byte (s : vm) (r : Nat) : Nat := (read s.memory (s.index_reg + r)).getD 0

/-- The test `sprite & (0b10000000 >> bit)` of the source, as a boolean. -/
def lit (sprite bit : Nat) : Bool := decide (sprite &&& (0b10000000 >>> bit) ≠ 0)

/-- The framebuffer cells addressed by the set bits of the sprite rows `rows`, in
the order in which the two loops visit them. -/
def sprite_cells (x_coord y_coord : Nat) (rowbyte : Nat → Nat) (rows : List Nat) :
    List (Fin 2048) :=
  ((rows ×ˢ List.range 8).filter (fun p => lit (rowbyte p.1) p.2)).map
    (fun p => coords x_coord y_coord p.1 p.2)

/-- A cell is covered by the sprite of a draw when some set bit `b` (most
significant first) of some sprite row `r` is mapped to it. -/
def covered (s : vm) (c : Fin 2048) : Prop :=
  ∃ r b v, r < s.current_op.n.val ∧ b < 8 ∧
    read s.memory (s.index_reg + r) = some v ∧ v.testBit (7 - b) = true ∧
    c.val = ((s.V s.current_op.x + b) + 64 * (s.V s.current_op.y + r)) % 2048

/-- The zero machine about to execute the draw `0xD0 b1` (x = 0, y = 1, n the low
nibble of `b1`) with `V[0] = vx`, `V[1] = vy`, the sprite byte `sprite` at address
0x300, `index_reg = 0x300` and the given framebuffer. -/
def draw_vm (b1 vx vy sprite : Nat) (screen : Fin 2048 → Nat) : vm :=
  { zero_vm with
    V := setV (setV zero_vm.V 0 vx) 1 vy
    memory := fun a => if a.val = 0x300 then sprite else 0
    index_reg := 0x300
    screen := screen
    current_op := decode 0xD0 b1 }

/-- The zero machine just after the call `0x2300` has been fetched from address
0x200 (so `program_counter = 0x202`), with one older return address 0x123 on the
stack and the word `0x00EE` stored at 0x300. -/
def call_vm : vm :=
  { zero_vm with
    memory := fun a => if a.val = 0x301 then 0xEE else 0
    program_counter := 0x202
    stack := [0x123]
    current_op := decode 0x23 0x00 }

/-- A machine about to execute the word `b0 b1`: `s` with that word decoded as the
current instruction. -/
def op_vm (b0 b1 : Nat) (s : vm) : vm :=
  { s with current_op := decode b0 b1 }

/-- The faults named by the error-handling section of the spec.  The source has
none of them: `vm::execute` returns `void` and nothing in it throws. -/
inductive Fault where
  | ExecutionFault
  | MemoryFault

/-- Specification side, not the source: the checked return of the spec's
error-handling section, which reports `ExecutionFault` on an empty call stack
and otherwise pops the top of the stack into the program counter. -/
def checked_return_spec (s : vm) : Except Fault vm :=
  match s.stack with
  | [] => Except.error Fault.ExecutionFault
  | top :: rest => Except.ok { s with program_counter := top, stack := rest }

/-- The zero machine about to execute the draw `0xD012` (x = 0, y = 1, n = 2) at
`V[0] = 0`, `V[1] = 31`, with every memory byte equal to 0xFF, `index_reg = 0x300`
and an empty framebuffer: the second sprite row lies below the last screen row. -/
def tall_vm : vm :=
  { draw_vm 0x12 0 31 0xFF (fun _ => 0) with memory := fun _ => 0xFF }

/-- The skip of the current instruction is taken: the condition tested by the cases
`0x3`, `0x4`, `0x5` and `0x9` of `vm::execute` holds. -/
def skip_taken (s : vm) : Prop :=
  (s.current_op.type = 3 ∧ s.V s.current_op.x = s.current_op.nn) ∨
  (s.current_op.type = 4 ∧ s.V s.current_op.x ≠ s.current_op.nn) ∨
  (s.current_op.type = 5 ∧ s.V s.current_op.x = s.V s.current_op.y) ∨
  (s.current_op.type = 9 ∧ s.V s.current_op.x ≠ s.V s.current_op.y)

/-- The zero machine with the bytes `b0`, `b1` stored at addresses 0x200 and 0x201
and `program_counter = 0x200`: the next fetch decodes the word `b0 b1`. -/
def fetch_vm (b0 b1 : Nat) : vm :=
  { zero_vm with
    memory := fun a => if a.val = 0x200 then b0 else if a.val = 0x201 then b1 else 0
    program_counter := 0x200 }

/-- Number of 1 bits among the eight bits of a sprite byte. -/
def ones (v : Nat) : Nat := (List.range 8).countP (fun i => v.testBit i)

/-- Number of 1 bits in the n sprite bytes `memory[index_reg .. index_reg + n - 1]`
of the current draw instruction. -/
def sprite_ones (s : vm) : Nat :=
  ((List.range s.current_op.n.val).map (fun r => ones (sprite_byte s r))).sum

/-! ## Basic facts about the embedding -/

theorem execute_family8 (s : vm) (h8 : s.current_op.type = 8) :
    execute s = some (execute_logical s) := by
  simp [execute, h8]

theorem setV_same (V : Fin 16 → Nat) (i : Fin 16) (v : Nat) : setV V i v i = v := by
  simp [setV]

theorem setV_other (V : Fin 16 → Nat) (i j : Fin 16) (v : Nat) (h : j ≠ i) :
    setV V i v j = V j := by
  simp [setV, h]

theorem land_255 (a : Nat) : a &&& 0xFF = a % 256 :=
  Nat.and_pow_two_sub_one_eq_mod a 8

theorem wrap8_cast (i : Int) : ((wrap8 i : Nat) : Int) = i % 256 := by
  unfold wrap8
  exact Int.toNat_of_nonneg (Int.emod_nonneg i (by decide))

/-! ## `8xy4`: addition with carry -/

/-- C1 (amended): for a register index x other than 15, whenever V[x] + V[y] > 255,
executing 8xy4 yields V[x] = (V[x] + V[y]) mod 256 and V[15] = 1; in particular
V[x] = 200, V[y] = 100 gives V[x] = 44. -/
theorem execute_8xy4_carry (s : vm) (h8 : s.current_op.type = 8) (h4 : s.current_op.n = 4)
    (hx : s.current_op.x ≠ 15) (hsum : s.V s.current_op.x + s.V s.current_op.y > 255) :
    ∃ s1, execute s = some s1 ∧
      s1.V s.current_op.x = (s.V s.current_op.x + s.V s.current_op.y) % 256 ∧
      s1.V 15 = 1 ∧
      (s.V s.current_op.x = 200 → s.V s.current_op.y = 100 → s1.V s.current_op.x = 44) := by
  refine ⟨execute_logical s, execute_family8 s h8, ?_⟩
  have hx' : (15 : Fin 16) ≠ s.current_op.x := fun h => hx h.symm
  have hv : (execute_logical s).V =
      setV (setV s.V 0xF 1) s.current_op.x
        ((s.V s.current_op.x + s.V s.current_op.y) % 256) := by
    simp [execute_logical, h4, hsum, land_255]
  rw [hv]
  refine ⟨setV_same _ _ _, ?_, ?_⟩
  · rw [setV_other _ _ _ _ hx', setV_same]
  · intro h1 h2
    rw [setV_same, h1, h2]

/-- Instance on the word 0x8014 with V[0] = 200, V[1] = 100. -/
theorem execute_8xy4_carry_witness :
    (reg_vm 0x80 0x14 0 0 200 1 100).current_op.x ≠ 15 ∧
    ∃ s1, execute (reg_vm 0x80 0x14 0 0 200 1 100) = some s1 ∧
      s1.V (reg_vm 0x80 0x14 0 0 200 1 100).current_op.x =
        ((reg_vm 0x80 0x14 0 0 200 1 100).V (reg_vm 0x80 0x14 0 0 200 1 100).current_op.x +
          (reg_vm 0x80 0x14 0 0 200 1 100).V (reg_vm 0x80 0x14 0 0 200 1 100).current_op.y) % 256 ∧
      s1.V 15 = 1 ∧
      ((reg_vm 0x80 0x14 0 0 200 1 100).V (reg_vm 0x80 0x14 0 0 200 1 100).current_op.x = 200 →
        (reg_vm 0x80 0x14 0 0 200 1 100).V (reg_vm 0x80 0x14 0 0 200 1 100).current_op.y = 100 →
        s1.V (reg_vm 0x80 0x14 0 0 200 1 100).current_op.x = 44) :=
  ⟨by decide,
   execute_8xy4_carry (reg_vm 0x80 0x14 0 0 200 1 100) (by decide) (by decide) (by decide)
     (by decide)⟩

/-- C1 fails when x = 15: the word 0x8F04 with V[15] = 200 and V[0] = 100 leaves
V[15] = 44, the truncated sum stored last, and not the carry flag 1. -/
theorem execute_8xy4_carry_x15 :
    (reg_vm 0x8F 0x04 0 15 200 0 100).V 15 = 200 ∧
    (reg_vm 0x8F 0x04 0 15 200 0 100).V 0 = 100 ∧
    (execute (reg_vm 0x8F 0x04 0 15 200 0 100)).map (fun s1 => s1.V 15) = some 44 ∧
    (execute (reg_vm 0x8F 0x04 0 15 200 0 100)).map (fun s1 => s1.V 15) ≠ some 1 := by
  decide

/-- C2 (amended): for a register index x other than 15, whenever V[x] + V[y] <= 255,
executing 8xy4 yields V[x] = V[x] + V[y] and leaves V[15] at the value it held
before; in particular V[x] = 10, V[y] = 20 gives V[x] = 30. -/
theorem execute_8xy4_no_carry (s : vm) (h8 : s.current_op.type = 8)
    (h4 : s.current_op.n = 4) (hx : s.current_op.x ≠ 15)
    (hsum : s.V s.current_op.x + s.V s.current_op.y ≤ 255) :
    ∃ s1, execute s = some s1 ∧
      s1.V s.current_op.x = s.V s.current_op.x + s.V s.current_op.y ∧
      s1.V 15 = s.V 15 ∧
      (s.V s.current_op.x = 10 → s.V s.current_op.y = 20 → s1.V s.current_op.x = 30) := by
  refine ⟨execute_logical s, execute_family8 s h8, ?_⟩
  have hx' : (15 : Fin 16) ≠ s.current_op.x := fun h => hx h.symm
  have hlt : ¬ (255 < s.V s.current_op.x + s.V s.current_op.y) := Nat.not_lt.mpr hsum
  have hmod : (s.V s.current_op.x + s.V s.current_op.y) % 256 =
      s.V s.current_op.x + s.V s.current_op.y := Nat.mod_eq_of_lt (by omega)
  have hv : (execute_logical s).V =
      setV s.V s.current_op.x (s.V s.current_op.x + s.V s.current_op.y) := by
    simp [execute_logical, h4, hlt, hmod]
  rw [hv]
  refine ⟨setV_same _ _ _, setV_other _ _ _ _ hx', ?_⟩
  intro h1 h2
  rw [setV_same, h1, h2]

/-- Instance on the word 0x8014 with V[0] = 10,
V[1] = 20 and V[15] = 7 beforehand. -/
theorem execute_8xy4_no_carry_witness :
    (reg_vm 0x80 0x14 7 0 10 1 20).V 15 = 7 ∧
    ∃ s1, execute (reg_vm 0x80 0x14 7 0 10 1 20) = some s1 ∧
      s1.V (reg_vm 0x80 0x14 7 0 10 1 20).current_op.x =
        (reg_vm 0x80 0x14 7 0 10 1 20).V (reg_vm 0x80 0x14 7 0 10 1 20).current_op.x +
          (reg_vm 0x80 0x14 7 0 10 1 20).V (reg_vm 0x80 0x14 7 0 10 1 20).current_op.y ∧
      s1.V 15 = (reg_vm 0x80 0x14 7 0 10 1 20).V 15 ∧
      ((reg_vm 0x80 0x14 7 0 10 1 20).V (reg_vm 0x80 0x14 7 0 10 1 20).current_op.x = 10 →
        (reg_vm 0x80 0x14 7 0 10 1 20).V (reg_vm 0x80 0x14 7 0 10 1 20).current_op.y = 20 →
        s1.V (reg_vm 0x80 0x14 7 0 10 1 20).current_op.x = 30) :=
  ⟨by decide,
   execute_8xy4_no_carry (reg_vm 0x80 0x14 7 0 10 1 20) (by decide) (by decide) (by decide)
     (by decide)⟩

/-- C2 fails when x = 15: the word 0x8F04 with V[15] = 10 and V[0] = 20 leaves
V[15] = 30, not the 10 it held before the instruction. -/
theorem execute_8xy4_no_carry_x15 :
    (reg_vm 0x8F 0x04 0 15 10 0 20).V 15 = 10 ∧
    (reg_vm 0x8F 0x04 0 15 10 0 20).V 0 = 20 ∧
    (execute (reg_vm 0x8F 0x04 0 15 10 0 20)).map (fun s1 => s1.V 15) = some 30 ∧
    (execute (reg_vm 0x8F 0x04 0 15 10 0 20)).map (fun s1 => s1.V 15) ≠
      some ((reg_vm 0x8F 0x04 0 15 10 0 20).V 15) := by
  decide

/-! ## `8xy5` and `8xy7`: subtraction -/

theorem execute_8xy5_V (s : vm) (h5 : s.current_op.n = 5) (hx : s.current_op.x ≠ 15)
    (hy : s.current_op.y ≠ 15) :
    (execute_logical s).V =
      setV (setV s.V 0xF (if s.V s.current_op.x > s.V s.current_op.y then 1 else 0))
        s.current_op.x (wrap8 ((s.V s.current_op.x : Int) - (s.V s.current_op.y : Int))) := by
  simp [execute_logical, h5, setV, hx, hy]

theorem execute_8xy7_V (s : vm) (h7 : s.current_op.n = 7) (hx : s.current_op.x ≠ 15)
    (hy : s.current_op.y ≠ 15) :
    (execute_logical s).V =
      setV (setV s.V 0xF (if s.V s.current_op.x < s.V s.current_op.y then 1 else 0))
        s.current_op.x (wrap8 ((s.V s.current_op.y : Int) - (s.V s.current_op.x : Int))) := by
  simp [execute_logical, h7, setV, hx, hy]

/-- C3 (amended): for register indices x, y other than 15, whenever V[x] <= V[y],
executing 8xy5 yields V[x] = (V[x] - V[y]) mod 256 (254 for V[x] = 3, V[y] = 5)
and sets V[15] to 0: the flag is assigned the outcome of the comparison
V[x] > V[y], so it is cleared on this branch. -/
theorem execute_8xy5_borrow (s : vm) (h8 : s.current_op.type = 8) (h5 : s.current_op.n = 5)
    (hx : s.current_op.x ≠ 15) (hy : s.current_op.y ≠ 15)
    (hle : s.V s.current_op.x ≤ s.V s.current_op.y) :
    ∃ s1, execute s = some s1 ∧
      (s1.V s.current_op.x : Int) =
        ((s.V s.current_op.x : Int) - (s.V s.current_op.y : Int)) % 256 ∧
      s1.V 15 = 0 ∧
      (s.V s.current_op.x = 3 → s.V s.current_op.y = 5 → s1.V s.current_op.x = 254) := by
  refine ⟨execute_logical s, execute_family8 s h8, ?_⟩
  have hx' : (15 : Fin 16) ≠ s.current_op.x := fun h => hx h.symm
  have hgt : ¬ (s.V s.current_op.y < s.V s.current_op.x) := Nat.not_lt.mpr hle
  rw [execute_8xy5_V s h5 hx hy]
  refine ⟨?_, ?_, ?_⟩
  · rw [setV_same, wrap8_cast]
  · rw [setV_other _ _ _ _ hx', setV_same]
    simp [hgt]
  · intro h1 h2
    rw [setV_same, h1, h2]
    decide

/-- Instance on the word 0x8015 with V[0] = 3,
V[1] = 5 and V[15] = 1 beforehand. -/
theorem execute_8xy5_borrow_witness :
    (reg_vm 0x80 0x15 1 0 3 1 5).V 15 = 1 ∧
    ∃ s1, execute (reg_vm 0x80 0x15 1 0 3 1 5) = some s1 ∧
      (s1.V (reg_vm 0x80 0x15 1 0 3 1 5).current_op.x : Int) =
        (((reg_vm 0x80 0x15 1 0 3 1 5).V (reg_vm 0x80 0x15 1 0 3 1 5).current_op.x : Int) -
          ((reg_vm 0x80 0x15 1 0 3 1 5).V (reg_vm 0x80 0x15 1 0 3 1 5).current_op.y : Int)) % 256 ∧
      s1.V 15 = 0 ∧
      ((reg_vm 0x80 0x15 1 0 3 1 5).V (reg_vm 0x80 0x15 1 0 3 1 5).current_op.x = 3 →
        (reg_vm 0x80 0x15 1 0 3 1 5).V (reg_vm 0x80 0x15 1 0 3 1 5).current_op.y = 5 →
        s1.V (reg_vm 0x80 0x15 1 0 3 1 5).current_op.x = 254) :=
  ⟨by decide,
   execute_8xy5_borrow (reg_vm 0x80 0x15 1 0 3 1 5) (by decide) (by decide) (by decide)
     (by decide) (by decide)⟩

/-- C3 fails: on the word 0x8015 with V[0] = 3, V[1] = 5 and V[15] = 1 the flag
ends at 0, not at its prior value 1; on the word 0x80F5 (y = 15) with
V[0] = 3, V[15] = 5 the result is V[0] = 3, not 254; on the word 0x8F05
(x = 15) with V[15] = 3, V[0] = 5 the result is V[15] = 251, not 254. -/
theorem execute_8xy5_borrow_clears_flag :
    ((reg_vm 0x80 0x15 1 0 3 1 5).V 15 = 1 ∧
      (execute (reg_vm 0x80 0x15 1 0 3 1 5)).map (fun s1 => (s1.V 0, s1.V 15)) =
        some (254, 0)) ∧
    ((reg_vm 0x80 0xF5 0 0 3 15 5).V 0 = 3 ∧ (reg_vm 0x80 0xF5 0 0 3 15 5).V 15 = 5 ∧
      (execute (reg_vm 0x80 0xF5 0 0 3 15 5)).map (fun s1 => (s1.V 0, s1.V 15)) =
        some (3, 0)) ∧
    ((reg_vm 0x8F 0x05 0 15 3 0 5).V 15 = 3 ∧ (reg_vm 0x8F 0x05 0 15 3 0 5).V 0 = 5 ∧
      (execute (reg_vm 0x8F 0x05 0 15 3 0 5)).map (fun s1 => s1.V 15) = some 251) := by
  decide

/-- C4 (amended): for register indices x, y other than 15 and 8-bit V[x], whenever
V[x] > V[y], executing 8xy5 yields V[x] = V[x] - V[y] and V[15] = 1; in
particular V[x] = 5, V[y] = 3 gives V[x] = 2. -/
theorem execute_8xy5_no_borrow (s : vm) (h8 : s.current_op.type = 8)
    (h5 : s.current_op.n = 5) (hx : s.current_op.x ≠ 15) (hy : s.current_op.y ≠ 15)
    (hbyte : s.V s.current_op.x < 256)
    (hgt : s.V s.current_op.x > s.V s.current_op.y) :
    ∃ s1, execute s = some s1 ∧
      s1.V s.current_op.x = s.V s.current_op.x - s.V s.current_op.y ∧
      s1.V 15 = 1 ∧
      (s.V s.current_op.x = 5 → s.V s.current_op.y = 3 → s1.V s.current_op.x = 2) := by
  refine ⟨execute_logical s, execute_family8 s h8, ?_⟩
  have hx' : (15 : Fin 16) ≠ s.current_op.x := fun h => hx h.symm
  have hval : wrap8 ((s.V s.current_op.x : Int) - (s.V s.current_op.y : Int)) =
      s.V s.current_op.x - s.V s.current_op.y := by
    have h := wrap8_cast ((s.V s.current_op.x : Int) - (s.V s.current_op.y : Int))
    omega
  rw [execute_8xy5_V s h5 hx hy]
  refine ⟨?_, ?_, ?_⟩
  · rw [setV_same, hval]
  · rw [setV_other _ _ _ _ hx', setV_same]
    simp [hgt]
  · intro h1 h2
    rw [setV_same, hval, h1, h2]

/-- Instance on the word 0x8015 with V[0] = 5,
V[1] = 3 and V[15] = 0 beforehand. -/
theorem execute_8xy5_no_borrow_witness :
    (reg_vm 0x80 0x15 0 0 5 1 3).V 15 = 0 ∧
    ∃ s1, execute (reg_vm 0x80 0x15 0 0 5 1 3) = some s1 ∧
      s1.V (reg_vm 0x80 0x15 0 0 5 1 3).current_op.x =
        (reg_vm 0x80 0x15 0 0 5 1 3).V (reg_vm 0x80 0x15 0 0 5 1 3).current_op.x -
          (reg_vm 0x80 0x15 0 0 5 1 3).V (reg_vm 0x80 0x15 0 0 5 1 3).current_op.y ∧
      s1.V 15 = 1 ∧
      ((reg_vm 0x80 0x15 0 0 5 1 3).V (reg_vm 0x80 0x15 0 0 5 1 3).current_op.x = 5 →
        (reg_vm 0x80 0x15 0 0 5 1 3).V (reg_vm 0x80 0x15 0 0 5 1 3).current_op.y = 3 →
        s1.V (reg_vm 0x80 0x15 0 0 5 1 3).current_op.x = 2) :=
  ⟨by decide,
   execute_8xy5_no_borrow (reg_vm 0x80 0x15 0 0 5 1 3) (by decide) (by decide) (by decide)
     (by decide) (by decide) (by decide)⟩

/-- C4 fails when y = 15 or x = 15: on the word 0x80F5 with V[0] = 5, V[15] = 3
the result is V[0] = 4 (the flag 1 is subtracted), not 2; on the word 0x8F05
with V[15] = 5, V[0] = 3 the result is V[15] = 254, neither 2 nor 1. -/
theorem execute_8xy5_no_borrow_flag_operand :
    ((reg_vm 0x80 0xF5 0 0 5 15 3).V 0 = 5 ∧ (reg_vm 0x80 0xF5 0 0 5 15 3).V 15 = 3 ∧
      (execute (reg_vm 0x80 0xF5 0 0 5 15 3)).map (fun s1 => (s1.V 0, s1.V 15)) =
        some (4, 1)) ∧
    ((reg_vm 0x8F 0x05 0 15 5 0 3).V 15 = 5 ∧ (reg_vm 0x8F 0x05 0 15 5 0 3).V 0 = 3 ∧
      (execute (reg_vm 0x8F 0x05 0 15 5 0 3)).map (fun s1 => s1.V 15) = some 254) := by
  decide

/-- C5 (amended): for register indices x, y other than 15, executing 8xy7 sets
V[15] to 1 if V[x] < V[y] and to 0 otherwise, and sets V[x] to
(V[y] - V[x]) mod 256. -/
theorem execute_8xy7_reverse_sub (s : vm) (h8 : s.current_op.type = 8)
    (h7 : s.current_op.n = 7) (hx : s.current_op.x ≠ 15) (hy : s.current_op.y ≠ 15) :
    ∃ s1, execute s = some s1 ∧
      s1.V 15 = (if s.V s.current_op.x < s.V s.current_op.y then 1 else 0) ∧
      (s1.V s.current_op.x : Int) =
        ((s.V s.current_op.y : Int) - (s.V s.current_op.x : Int)) % 256 := by
  refine ⟨execute_logical s, execute_family8 s h8, ?_⟩
  have hx' : (15 : Fin 16) ≠ s.current_op.x := fun h => hx h.symm
  rw [execute_8xy7_V s h7 hx hy]
  refine ⟨?_, ?_⟩
  · rw [setV_other _ _ _ _ hx', setV_same]
  · rw [setV_same, wrap8_cast]

/-- Instance on the word 0x8017 with V[0] = 5,
V[1] = 3 and V[15] = 1 beforehand. -/
theorem execute_8xy7_reverse_sub_witness :
    (reg_vm 0x80 0x17 1 0 5 1 3).V 15 = 1 ∧
    ∃ s1, execute (reg_vm 0x80 0x17 1 0 5 1 3) = some s1 ∧
      s1.V 15 =
        (if (reg_vm 0x80 0x17 1 0 5 1 3).V (reg_vm 0x80 0x17 1 0 5 1 3).current_op.x <
            (reg_vm 0x80 0x17 1 0 5 1 3).V (reg_vm 0x80 0x17 1 0 5 1 3).current_op.y
          then 1 else 0) ∧
      (s1.V (reg_vm 0x80 0x17 1 0 5 1 3).current_op.x : Int) =
        (((reg_vm 0x80 0x17 1 0 5 1 3).V (reg_vm 0x80 0x17 1 0 5 1 3).current_op.y : Int) -
          ((reg_vm 0x80 0x17 1 0 5 1 3).V (reg_vm 0x80 0x17 1 0 5 1 3).current_op.x : Int)) % 256 :=
  ⟨by decide,
   execute_8xy7_reverse_sub (reg_vm 0x80 0x17 1 0 5 1 3) (by decide) (by decide) (by decide)
     (by decide)⟩

/-- C5 fails: on the word 0x8017 with V[0] = 5, V[1] = 3 and V[15] = 1 the flag ends
at 0, not at its prior value 1; on the word 0x80F7 (y = 15) with V[0] = 3,
V[15] = 5 the result is V[0] = 254, not 2; on the word 0x8F07 (x = 15) with
V[15] = 3, V[0] = 5 the result is V[15] = 4, not 2. -/
theorem execute_8xy7_clears_flag :
    ((reg_vm 0x80 0x17 1 0 5 1 3).V 15 = 1 ∧
      (execute (reg_vm 0x80 0x17 1 0 5 1 3)).map (fun s1 => (s1.V 0, s1.V 15)) =
        some (254, 0)) ∧
    ((reg_vm 0x80 0xF7 0 0 3 15 5).V 0 = 3 ∧ (reg_vm 0x80 0xF7 0 0 3 15 5).V 15 = 5 ∧
      (execute (reg_vm 0x80 0xF7 0 0 3 15 5)).map (fun s1 => (s1.V 0, s1.V 15)) =
        some (254, 1)) ∧
    ((reg_vm 0x8F 0x07 0 15 3 0 5).V 15 = 3 ∧ (reg_vm 0x8F 0x07 0 15 3 0 5).V 0 = 5 ∧
      (execute (reg_vm 0x8F 0x07 0 15 3 0 5)).map (fun s1 => s1.V 15) = some 4) := by
  decide

/-! ## The draw loops as a fold over the cells of the set sprite bits -/

theorem draw_pixel_eq (x_coord y_coord byte sprite : Nat) (s : vm) (bit : Nat) :
    draw_pixel x_coord y_coord byte sprite s bit =
      if lit sprite bit then toggle s (coords x_coord y_coord byte bit) else s := by
  simp [draw_pixel, lit, toggle]

theorem foldl_draw_pixel (x_coord y_coord byte : Nat) (rowbyte : Nat → Nat) (bs : List Nat)
    (s : vm) :
    bs.foldl (draw_pixel x_coord y_coord byte (rowbyte byte)) s =
      (((bs.map (Prod.mk byte)).filter (fun p => lit (rowbyte p.1) p.2)).map
        (fun p => coords x_coord y_coord p.1 p.2)).foldl toggle s := by
  induction bs generalizing s with
  | nil => rfl
  | cons b bs ih =>
    rw [List.foldl_cons, ih, draw_pixel_eq]
    by_cases hb : lit (rowbyte byte) b
    · simp [hb]
    · simp [hb]

theorem sprite_cells_cons (x_coord y_coord : Nat) (rowbyte : Nat → Nat) (r : Nat)
    (rows : List Nat) :
    sprite_cells x_coord y_coord rowbyte (r :: rows) =
      ((((List.range 8).map (Prod.mk r)).filter (fun p => lit (rowbyte p.1) p.2)).map
        (fun p => coords x_coord y_coord p.1 p.2)) ++
      sprite_cells x_coord y_coord rowbyte rows := by
  simp [sprite_cells, List.product_cons]

theorem foldl_toggle_frame (cells : List (Fin 2048)) (s : vm) :
    (cells.foldl toggle s).memory = s.memory ∧
    (cells.foldl toggle s).index_reg = s.index_reg ∧
    (cells.foldl toggle s).program_counter = s.program_counter ∧
    (cells.foldl toggle s).stack = s.stack ∧
    (cells.foldl toggle s).current_op = s.current_op := by
  induction cells generalizing s with
  | nil => simp
  | cons c cells ih =>
    rw [List.foldl_cons]
    obtain ⟨h1, h2, h3, h4, h5⟩ := ih (toggle s c)
    exact ⟨h1, h2, h3, h4, h5⟩

theorem sprite_byte_foldl_toggle (cells : List (Fin 2048)) (s : vm) :
    sprite_byte (cells.foldl toggle s) = sprite_byte s := by
  funext r
  obtain ⟨h1, h2, -⟩ := foldl_toggle_frame cells s
  simp [sprite_byte, h1, h2]

theorem read_of_lt (memory : Fin 4096 → Nat) (a : Nat) (h : a < 4096) :
    read memory a = some (memory ⟨a, h⟩) := by
  simp [read, h]

theorem draw_rows_eq (x_coord y_coord : Nat) (hy : y_coord < SCREEN_HEIGHT) (k byte : Nat)
    (s : vm) (hmem : ∀ r, r < k → s.index_reg + byte + r < 4096) :
    draw_rows x_coord y_coord k byte s =
      some ((sprite_cells x_coord y_coord (sprite_byte s) (List.range' byte k)).foldl toggle s) := by
  induction k generalizing byte s with
  | zero => simp [draw_rows, sprite_cells]
  | succ k ih =>
    have hlt : s.index_reg + byte < 4096 := hmem 0 (Nat.succ_pos k)
    have hge : ¬ (y_coord ≥ SCREEN_HEIGHT) := Nat.not_le.mpr hy
    have hsb : sprite_byte s byte = s.memory ⟨s.index_reg + byte, hlt⟩ := by
      simp [sprite_byte, read_of_lt _ _ hlt]
    rw [draw_rows, if_neg hge, read_of_lt _ _ hlt]
    simp only []
    rw [← hsb, draw_bits, foldl_draw_pixel x_coord y_coord byte (sprite_byte s)]
    rw [ih]
    · rw [sprite_byte_foldl_toggle, List.range'_succ, sprite_cells_cons, List.foldl_append]
    · intro r hr
      rw [(foldl_toggle_frame _ s).2.1]
      have h := hmem (r + 1) (by omega)
      omega

theorem draw_eq (s : vm) (hy : s.V s.current_op.y < 32)
    (hmem : ∀ r, r < s.current_op.n.val → s.index_reg + r < 4096) :
    draw s =
      some ((sprite_cells (s.V s.current_op.x) (s.V s.current_op.y) (sprite_byte s)
        (List.range s.current_op.n.val)).foldl toggle { s with V := setV s.V 0xF 0 }) := by
  rw [draw, draw_rows_eq _ _ hy _ _ _ (by simpa using hmem), List.range_eq_range']
  rfl

theorem draw_eq_of_ge (s : vm) (hy : 32 ≤ s.V s.current_op.y) :
    draw s = some { s with V := setV s.V 0xF 0 } := by
  rw [draw]
  cases h : s.current_op.n.val with
  | zero => simp [draw_rows]
  | succ k => simp [draw_rows, SCREEN_HEIGHT, hy]

theorem foldl_toggle_screen (cells : List (Fin 2048)) (s : vm) (c : Fin 2048) :
    (cells.foldl toggle s).screen c =
      if cells.count c % 2 = 1 then s.screen c ^^^ 1 else s.screen c := by
  induction cells generalizing s with
  | nil => simp
  | cons c0 cells ih =>
    rw [List.foldl_cons, ih, List.count_cons]
    by_cases hc : c0 = c
    · subst hc
      have hodd : (List.count c0 cells + 1) % 2 = 1 ↔ ¬ (List.count c0 cells % 2 = 1) := by
        omega
      by_cases hp : List.count c0 cells % 2 = 1
      · have hp1 : ¬ ((List.count c0 cells + 1) % 2 = 1) := fun h => (hodd.mp h) hp
        simp [toggle, hp, hp1, Nat.xor_cancel_right]
      · have hp1 : (List.count c0 cells + 1) % 2 = 1 := hodd.mpr hp
        simp [toggle, hp, hp1]
    · have hc1 : ¬ (c = c0) := fun h => hc h.symm
      simp [toggle, hc, hc1]

theorem foldl_toggle_V (cells : List (Fin 2048)) (s : vm) (i : Fin 16) (hi : i ≠ 15) :
    (cells.foldl toggle s).V i = s.V i := by
  induction cells generalizing s with
  | nil => rfl
  | cons c0 cells ih =>
    rw [List.foldl_cons, ih]
    simp [toggle, setV, hi]

theorem foldl_toggle_flag (cells : List (Fin 2048)) (c : Fin 2048) (s : vm) :
    ((cells ++ [c]).foldl toggle s).V 15 = (cells.foldl toggle s).screen c := by
  rw [List.foldl_append]
  simp [toggle, setV]

theorem land_two_pow_ne_zero (a k : Nat) : a &&& 2 ^ k ≠ 0 ↔ a.testBit k = true := by
  constructor
  · intro h
    by_contra hb
    apply h
    apply Nat.eq_of_testBit_eq
    intro i
    simp only [Nat.testBit_and, Nat.testBit_two_pow, Nat.zero_testBit]
    by_cases hk : k = i
    · subst hk
      simp [hb]
    · simp [hk]
  · intro hb h0
    have h1 : (a &&& 2 ^ k).testBit k = true := by
      simp [hb, Nat.testBit_two_pow_self]
    rw [h0] at h1
    simp at h1

theorem lit_iff_testBit (sprite bit : Nat) (hbit : bit < 8) :
    lit sprite bit = true ↔ sprite.testBit (7 - bit) = true := by
  have hpow : 0b10000000 >>> bit = 2 ^ (7 - bit) := by
    interval_cases bit <;> rfl
  unfold lit
  rw [hpow, decide_eq_true_iff]
  exact land_two_pow_ne_zero sprite (7 - bit)

theorem coords_injective (x_coord y_coord r1 b1 r2 b2 : Nat) (hr1 : r1 < 16) (hr2 : r2 < 16)
    (hb1 : b1 < 8) (hb2 : b2 < 8)
    (h : coords x_coord y_coord r1 b1 = coords x_coord y_coord r2 b2) :
    r1 = r2 ∧ b1 = b2 := by
  have hv := congrArg Fin.val h
  simp only [coords, SCREEN_WIDTH] at hv
  omega

theorem mem_sprite_cells (x_coord y_coord : Nat) (rowbyte : Nat → Nat) (n : Nat)
    (c : Fin 2048) :
    c ∈ sprite_cells x_coord y_coord rowbyte (List.range n) ↔
      ∃ r b, r < n ∧ b < 8 ∧ lit (rowbyte r) b = true ∧ c = coords x_coord y_coord r b := by
  simp only [sprite_cells, List.mem_map, List.mem_filter, List.mem_product, List.mem_range,
    Prod.exists]
  constructor
  · rintro ⟨r, b, ⟨⟨hr, hb⟩, hl⟩, hc⟩
    exact ⟨r, b, hr, hb, hl, hc.symm⟩
  · rintro ⟨r, b, hr, hb, hl, hc⟩
    exact ⟨r, b, ⟨⟨hr, hb⟩, hl⟩, hc.symm⟩

theorem nodup_sprite_cells (x_coord y_coord : Nat) (rowbyte : Nat → Nat) (n : Nat)
    (hn : n ≤ 16) : (sprite_cells x_coord y_coord rowbyte (List.range n)).Nodup := by
  unfold sprite_cells
  apply List.Nodup.map_on
  · rintro ⟨r1, b1⟩ h1 ⟨r2, b2⟩ h2 h
    simp only [List.mem_filter, List.mem_product, List.mem_range] at h1 h2
    obtain ⟨e1, e2⟩ := coords_injective x_coord y_coord r1 b1 r2 b2 (by omega) (by omega)
      h1.1.2 h2.1.2 h
    rw [e1, e2]
  · exact ((List.nodup_range n).product (List.nodup_range 8)).filter _

theorem execute_draw (s : vm) (hD : s.current_op.type = 13) : execute s = draw s := by
  simp [execute, hD]

theorem sprite_byte_of_read (s : vm) (r v : Nat)
    (h : read s.memory (s.index_reg + r) = some v) : sprite_byte s r = v := by
  simp [sprite_byte, h]

theorem covered_iff_mem (s : vm) (hmem : ∀ r, r < s.current_op.n.val → s.index_reg + r < 4096)
    (c : Fin 2048) :
    covered s c ↔
      c ∈ sprite_cells (s.V s.current_op.x) (s.V s.current_op.y) (sprite_byte s)
        (List.range s.current_op.n.val) := by
  rw [mem_sprite_cells]
  constructor
  · rintro ⟨r, b, v, hr, hb, hv, hbit, hc⟩
    refine ⟨r, b, hr, hb, ?_, ?_⟩
    · rw [sprite_byte_of_read s r v hv]
      exact (lit_iff_testBit v b hb).mpr hbit
    · apply Fin.ext
      simpa [coords, SCREEN_WIDTH] using hc
  · rintro ⟨r, b, hr, hb, hl, hc⟩
    have hv := read_of_lt s.memory (s.index_reg + r) (hmem r hr)
    refine ⟨r, b, _, hr, hb, hv, ?_, ?_⟩
    · rw [sprite_byte_of_read s r _ hv] at hl
      exact (lit_iff_testBit _ b hb).mp hl
    · rw [hc]
      simp [coords, SCREEN_WIDTH]

theorem xor_one_ne (a : Nat) : a ^^^ 1 ≠ a := by
  intro h
  have h0 := congrArg (fun m => m.testBit 0) h
  simp at h0
  omega

theorem count_sprite_cells (s : vm) (c : Fin 2048) :
    (sprite_cells (s.V s.current_op.x) (s.V s.current_op.y) (sprite_byte s)
        (List.range s.current_op.n.val)).count c =
      if c ∈ sprite_cells (s.V s.current_op.x) (s.V s.current_op.y) (sprite_byte s)
        (List.range s.current_op.n.val) then 1 else 0 :=
  List.count_eq_of_nodup (nodup_sprite_cells _ _ _ _ (Nat.le_of_lt s.current_op.n.isLt))

theorem draw_again (s s1 : vm) (hD : s.current_op.type = 13)
    (hy : s.V s.current_op.y < 32)
    (hmem : ∀ r, r < s.current_op.n.val → s.index_reg + r < 4096)
    (hop : s1.current_op = s.current_op) (hI : s1.index_reg = s.index_reg)
    (hm : s1.memory = s.memory) (hx1 : s1.V s.current_op.x = s.V s.current_op.x)
    (hy1 : s1.V s.current_op.y = s.V s.current_op.y) :
    execute s1 =
      some ((sprite_cells (s.V s.current_op.x) (s.V s.current_op.y) (sprite_byte s)
        (List.range s.current_op.n.val)).foldl toggle { s1 with V := setV s1.V 0xF 0 }) := by
  have hD1 : s1.current_op.type = 13 := by rw [hop]; exact hD
  have hyy : s1.V s1.current_op.y < 32 := by rw [hop, hy1]; exact hy
  have hmem1 : ∀ r, r < s1.current_op.n.val → s1.index_reg + r < 4096 := by
    rw [hop, hI]; exact hmem
  have hsb : sprite_byte s1 = sprite_byte s := by
    funext r
    simp [sprite_byte, hm, hI]
  rw [execute_draw s1 hD1, draw_eq s1 hyy hmem1, hsb, hop, hx1, hy1]

theorem byte_has_bit (v : Nat) (h : v % 256 ≠ 0) : ∃ b, b < 8 ∧ v.testBit (7 - b) = true := by
  by_contra hno
  apply h
  apply Nat.eq_of_testBit_eq
  intro i
  rw [show (256 : Nat) = 2 ^ 8 from rfl, Nat.testBit_mod_two_pow, Nat.zero_testBit]
  by_cases hi : i < 8
  · have hb : v.testBit i = false := by
      by_contra hb
      apply hno
      refine ⟨7 - i, by omega, ?_⟩
      have h7 : 7 - (7 - i) = i := by omega
      rw [h7]
      simpa using hb
    simp [hb]
  · simp [hi]

/-! ## `Dxyn`: the collision flag (C6) -/

/-- C6, evaluated on the code: with cell 0 on and every other cell off, drawing the
one-row sprite 0xC0 at (0, 0) toggles cell 0 (which was on) and then cell 1
(which was off), and ends with V[15] = 0: the later pixel overwrote the
collision recorded for the first one. -/
theorem draw_later_pixel_clears_collision :
    (draw_vm 0x11 0 0 0xC0 (fun c => if c.val = 0 then 1 else 0)).screen 0 = 1 ∧
    (execute (draw_vm 0x11 0 0 0xC0 (fun c => if c.val = 0 then 1 else 0))).map
      (fun s1 => (s1.screen 0, s1.screen 1, s1.V 15)) = some (0, 1, 0) := by
  decide

/-! ## `Dxyn`: drawing twice (C7, C8) -/

/-- C7: for every machine state whose n sprite bytes lie inside the memory,
executing the same Dxyn twice in a row at the same location (V[x] and V[y]
the same for the second draw; index_reg, memory and the instruction are left
alone by the first draw) restores the framebuffer to exactly its contents
before the first draw. -/
theorem draw_twice_restores_screen (s : vm) (hD : s.current_op.type = 13)
    (hmem : ∀ r, r < s.current_op.n.val → s.index_reg + r < 4096) :
    ∃ s1, execute s = some s1 ∧
      s1.current_op = s.current_op ∧ s1.index_reg = s.index_reg ∧ s1.memory = s.memory ∧
      (s1.V s.current_op.x = s.V s.current_op.x → s1.V s.current_op.y = s.V s.current_op.y →
        ∃ s2, execute s1 = some s2 ∧ s2.screen = s.screen) := by
  by_cases hy : s.V s.current_op.y < 32
  · refine ⟨_, (execute_draw s hD).trans (draw_eq s hy hmem), ?_⟩
    obtain ⟨f1, f2, -, -, f5⟩ := foldl_toggle_frame
      (sprite_cells (s.V s.current_op.x) (s.V s.current_op.y) (sprite_byte s)
        (List.range s.current_op.n.val)) { s with V := setV s.V 0xF 0 }
    refine ⟨f5, f2, f1, ?_⟩
    intro hx1 hy1
    refine ⟨_, draw_again s _ hD hy hmem f5 f2 f1 hx1 hy1, ?_⟩
    funext c
    rw [foldl_toggle_screen]
    show (if _ then (List.foldl toggle _ _).screen c ^^^ 1 else (List.foldl toggle _ _).screen c)
      = s.screen c
    rw [foldl_toggle_screen]
    show (if _ then (if _ then s.screen c ^^^ 1 else s.screen c) ^^^ 1
      else (if _ then s.screen c ^^^ 1 else s.screen c)) = s.screen c
    split
    · rw [Nat.xor_cancel_right]
    · rfl
  · have hy32 : 32 ≤ s.V s.current_op.y := Nat.le_of_not_lt hy
    refine ⟨_, (execute_draw s hD).trans (draw_eq_of_ge s hy32), rfl, rfl, rfl, ?_⟩
    intro _ hy1
    have hD1 : ({ s with V := setV s.V 0xF 0 } : vm).current_op.type = 13 := hD
    refine ⟨_, (execute_draw _ hD1).trans (draw_eq_of_ge _ ?_), rfl⟩
    show 32 ≤ setV s.V 0xF 0 s.current_op.y
    have hy1' : setV s.V 0xF 0 s.current_op.y = s.V s.current_op.y := hy1
    rw [hy1']
    exact hy32

/-- Instance on the draw 0xD011 of the sprite
0xFF at (60, 0) onto a framebuffer with cell 61 on: both draws are defined and
the second one gives the first framebuffer back. -/
theorem draw_twice_restores_screen_witness :
    ∃ s1, execute (draw_vm 0x11 60 0 0xFF (fun c => if c.val = 61 then 1 else 0)) = some s1 ∧
      s1.screen 61 = 0 ∧ s1.screen 62 = 1 ∧
      ∃ s2, execute s1 = some s2 ∧
        s2.screen = (draw_vm 0x11 60 0 0xFF (fun c => if c.val = 61 then 1 else 0)).screen := by
  obtain ⟨s1, h1, -, -, -, h2⟩ :=
    draw_twice_restores_screen (draw_vm 0x11 60 0 0xFF (fun c => if c.val = 61 then 1 else 0))
      (by decide) (by decide)
  have hval : (execute (draw_vm 0x11 60 0 0xFF (fun c => if c.val = 61 then 1 else 0))).map
      (fun t => (t.V 0, t.V 1, t.screen 61, t.screen 62)) = some (60, 0, 0, 1) := by decide
  rw [h1] at hval
  simp only [Option.map_some', Option.some.injEq, Prod.mk.injEq] at hval
  obtain ⟨e0, e1, e2, e3⟩ := hval
  exact ⟨s1, h1, e2, e3, h2 e0 e1⟩

/-- C8 (amended): with V[y] < 32, drawing the same non-zero sprite (its n bytes
inside the memory, one of them non-zero) twice at the same location with Dxyn,
starting from a framebuffer in which the covered cells are off, leaves
V[15] = 0 after the first draw and V[15] = 1 after the second draw. -/
theorem draw_twice_collision_flag (s : vm) (hD : s.current_op.type = 13)
    (hy : s.V s.current_op.y < 32)
    (hmem : ∀ r, r < s.current_op.n.val → s.index_reg + r < 4096)
    (hnz : ∃ r v, r < s.current_op.n.val ∧ read s.memory (s.index_reg + r) = some v ∧
      v % 256 ≠ 0)
    (hoff : ∀ c, covered s c → s.screen c = 0) :
    ∃ s1, execute s = some s1 ∧ s1.V 15 = 0 ∧
      (s1.V s.current_op.x = s.V s.current_op.x → s1.V s.current_op.y = s.V s.current_op.y →
        ∃ s2, execute s1 = some s2 ∧ s2.V 15 = 1) := by
  have hnodup := nodup_sprite_cells (s.V s.current_op.x) (s.V s.current_op.y) (sprite_byte s)
    s.current_op.n.val (Nat.le_of_lt s.current_op.n.isLt)
  have hcov := covered_iff_mem s hmem
  obtain ⟨f1, f2, -, -, f5⟩ := foldl_toggle_frame
    (sprite_cells (s.V s.current_op.x) (s.V s.current_op.y) (sprite_byte s)
      (List.range s.current_op.n.val)) { s with V := setV s.V 0xF 0 }
  have hagain := draw_again s
    ((sprite_cells (s.V s.current_op.x) (s.V s.current_op.y) (sprite_byte s)
      (List.range s.current_op.n.val)).foldl toggle { s with V := setV s.V 0xF 0 })
    hD hy hmem f5 f2 f1
  have hfirst := (execute_draw s hD).trans (draw_eq s hy hmem)
  have hne : sprite_cells (s.V s.current_op.x) (s.V s.current_op.y) (sprite_byte s)
      (List.range s.current_op.n.val) ≠ [] := by
    obtain ⟨r, v, hr, hv, hv0⟩ := hnz
    obtain ⟨b, hb, hbit⟩ := byte_has_bit v hv0
    have hc : covered s (coords (s.V s.current_op.x) (s.V s.current_op.y) r b) :=
      ⟨r, b, v, hr, hb, hv, hbit, by simp [coords, SCREEN_WIDTH]⟩
    exact List.ne_nil_of_mem ((hcov _).mp hc)
  generalize sprite_cells (s.V s.current_op.x) (s.V s.current_op.y) (sprite_byte s)
    (List.range s.current_op.n.val) = cells at hnodup hcov hagain hfirst hne
  rcases List.eq_nil_or_concat cells with h0 | ⟨front, c, hconcat⟩
  · exact absurd h0 hne
  · rw [List.concat_eq_append] at hconcat
    subst hconcat
    have hc_front : c ∉ front := by
      intro hmemc
      have hdis := (List.nodup_append.mp hnodup).2.2
      exact hdis hmemc (List.mem_singleton_self c) 
    have hcount0 : List.count c front = 0 := List.count_eq_zero_of_not_mem hc_front
    have hcount1 : List.count c (front ++ [c]) = 1 := by
      rw [List.count_append, hcount0]
      simp
    have hc_off : s.screen c = 0 := hoff c ((hcov c).mpr (by simp))
    refine ⟨_, hfirst, ?_, ?_⟩
    · rw [foldl_toggle_flag, foldl_toggle_screen, hcount0]
      simpa using hc_off
    · intro hx1 hy1
      refine ⟨_, hagain hx1 hy1, ?_⟩
      rw [foldl_toggle_flag, foldl_toggle_screen, hcount0]
      simp only [Nat.zero_mod, zero_ne_one, if_false]
      rw [foldl_toggle_screen, hcount1]
      simp only [if_true]
      show s.screen c ^^^ 1 = 1
      rw [hc_off]
      rfl

/-- Instance on the draw 0xD011 of the sprite 0xFF
at (60, 0) onto the empty framebuffer. -/
theorem draw_twice_collision_flag_witness :
    (draw_vm 0x11 60 0 0xFF (fun _ => 0)).V (draw_vm 0x11 60 0 0xFF (fun _ => 0)).current_op.y
      < 32 ∧
    ∃ s1, execute (draw_vm 0x11 60 0 0xFF (fun _ => 0)) = some s1 ∧ s1.V 15 = 0 ∧
      ∃ s2, execute s1 = some s2 ∧ s2.V 15 = 1 := by
  obtain ⟨s1, h1, hflag, h2⟩ :=
    draw_twice_collision_flag (draw_vm 0x11 60 0 0xFF (fun _ => 0)) (by decide) (by decide)
      (by decide) ⟨0, 0xFF, by decide, by decide, by decide⟩ (fun _ _ => rfl)
  have hval : (execute (draw_vm 0x11 60 0 0xFF (fun _ => 0))).map
      (fun t => (t.V 0, t.V 1)) = some (60, 0) := by decide
  rw [h1] at hval
  simp only [Option.map_some', Option.some.injEq, Prod.mk.injEq] at hval
  exact ⟨by decide, s1, h1, hflag, h2 hval.1 hval.2⟩

/-- C8 fails when V[y] >= 32: the draw 0xD011 of the non-zero sprite 0xFF at
(0, 32) onto the empty framebuffer draws nothing, so V[15] is 0 after the
first draw and still 0 after the second draw at the same location. -/
theorem draw_twice_below_screen_no_collision :
    (draw_vm 0x11 0 32 0xFF (fun _ => 0)).V 1 = 32 ∧
    read (draw_vm 0x11 0 32 0xFF (fun _ => 0)).memory
      ((draw_vm 0x11 0 32 0xFF (fun _ => 0)).index_reg + 0) = some 0xFF ∧
    (execute (draw_vm 0x11 0 32 0xFF (fun _ => 0))).map
      (fun s1 => (s1.V 0, s1.V 1, s1.V 15)) = some (0, 32, 0) ∧
    ((execute (draw_vm 0x11 0 32 0xFF (fun _ => 0))).bind execute).map
      (fun s2 => s2.V 15) = some 0 := by
  decide

/-! ## `Dxyn`: the cells that are flipped (C9) -/

/-- C9: for every machine state with V[y] < 32 whose n sprite bytes lie inside the
memory, after Dxyn a framebuffer cell c has been flipped if and only if there
is a row r < n and a bit position b < 8 such that bit b (most significant
first) of memory[index_reg + r] is 1 and
c = ((V[x] + b) + 64 * (V[y] + r)) mod 2048; every other cell is unchanged. -/
theorem draw_flips_exactly_covered (s : vm) (hD : s.current_op.type = 13)
    (hy : s.V s.current_op.y < 32)
    (hmem : ∀ r, r < s.current_op.n.val → s.index_reg + r < 4096) :
    ∃ s1, execute s = some s1 ∧
      ∀ c : Fin 2048,
        (s1.screen c = s.screen c ^^^ 1 ↔ covered s c) ∧
        (¬ covered s c → s1.screen c = s.screen c) := by
  refine ⟨_, (execute_draw s hD).trans (draw_eq s hy hmem), ?_⟩
  intro c
  rw [foldl_toggle_screen, count_sprite_cells s c, covered_iff_mem s hmem c]
  show ((if _ then s.screen c ^^^ 1 else s.screen c) = s.screen c ^^^ 1 ↔ _) ∧
    (_ → (if _ then s.screen c ^^^ 1 else s.screen c) = s.screen c)
  by_cases hc : c ∈ sprite_cells (s.V s.current_op.x) (s.V s.current_op.y) (sprite_byte s)
      (List.range s.current_op.n.val)
  · simp [hc]
  · have hne : ¬ (s.screen c = s.screen c ^^^ 1) := fun h => xor_one_ne _ h.symm
    simp [hc, hne]

/-- Instance on the draw 0xD011 of the 8x1 sprite
0xFF at x_coord = 60, y_coord = 0: exactly the cells with flat indices 60..67
are flipped (columns 60-63 of row 0 and columns 0-3 of row 1). -/
theorem draw_flips_exactly_covered_witness :
    ∃ s1, execute (draw_vm 0x11 60 0 0xFF (fun _ => 0)) = some s1 ∧
      ∀ c : Fin 2048,
        (s1.screen c = (draw_vm 0x11 60 0 0xFF (fun _ => 0)).screen c ^^^ 1 ↔
          60 ≤ c.val ∧ c.val ≤ 67) ∧
        (¬ (60 ≤ c.val ∧ c.val ≤ 67) →
          s1.screen c = (draw_vm 0x11 60 0 0xFF (fun _ => 0)).screen c) := by
  obtain ⟨s1, h1, h2⟩ :=
    draw_flips_exactly_covered (draw_vm 0x11 60 0 0xFF (fun _ => 0)) (by decide) (by decide)
      (by decide)
  have hcov : ∀ c : Fin 2048,
      covered (draw_vm 0x11 60 0 0xFF (fun _ => 0)) c ↔ 60 ≤ c.val ∧ c.val ≤ 67 := by
    intro c
    constructor
    · rintro ⟨r, b, v, hr, hb, -, -, hc⟩
      have hr0 : r < 1 := hr
      have hc1 : c.val = ((60 + b) + 64 * (0 + r)) % 2048 := hc
      omega
    · rintro ⟨hlo, hhi⟩
      have hrd : read (draw_vm 0x11 60 0 0xFF (fun _ => 0)).memory
          ((draw_vm 0x11 60 0 0xFF (fun _ => 0)).index_reg + 0) = some 0xFF := by decide
      have hbit : ∀ b, b < 8 → (0xFF : Nat).testBit (7 - b) = true := by decide
      refine ⟨0, c.val - 60, 0xFF, by decide, by omega, hrd, hbit _ (by omega), ?_⟩
      show c.val = ((60 + (c.val - 60)) + 64 * (0 + 0)) % 2048
      omega
  refine ⟨s1, h1, fun c => ?_⟩
  rw [← hcov c]
  exact h2 c

/-! ## Call and return (C10) -/

/-- C10: for every machine state taken just after a 2nnn instruction has been
fetched, with program_counter = p, in which memory at nnn holds the bytes
0x00, 0xEE: executing 2nnn and then fetching and executing the 00EE at nnn
leaves program_counter equal to p and the call stack equal to what it was
before the call. -/
theorem call_return_round_trip (s : vm) (h2 : s.current_op.type = 2)
    (hb0 : read s.memory s.current_op.nnn = some 0x00)
    (hb1 : read s.memory (s.current_op.nnn + 1) = some 0xEE) :
    ∃ s1 s2 s3, execute s = some s1 ∧ fetch s1 = some s2 ∧ execute s2 = some s3 ∧
      s1.program_counter = s.current_op.nnn ∧
      s1.stack = s.program_counter :: s.stack ∧
      s2.current_op = decode 0x00 0xEE ∧
      s3.program_counter = s.program_counter ∧ s3.stack = s.stack := by
  have hcall : execute s =
      some { s with stack := s.program_counter :: s.stack
                    program_counter := s.current_op.nnn } := by
    simp [execute, h2]
  have hfetch : fetch { s with stack := s.program_counter :: s.stack
                               program_counter := s.current_op.nnn } =
      some { s with stack := s.program_counter :: s.stack
                    current_op := decode 0x00 0xEE
                    program_counter := (s.current_op.nnn + 2) % 65536 } := by
    simp [fetch, hb0, hb1]
  have hret : execute { s with stack := s.program_counter :: s.stack
                               current_op := decode 0x00 0xEE
                               program_counter := (s.current_op.nnn + 2) % 65536 } =
      some { s with stack := s.stack
                    current_op := decode 0x00 0xEE
                    program_counter := s.program_counter } := by
    simp [execute, decode]
  exact ⟨_, _, _, hcall, hfetch, hret, rfl, rfl, rfl, rfl, rfl⟩

/-- Instance on the call 0x2300 fetched from 0x200,
with 0x00EE stored at 0x300 and one older return address on the stack. -/
theorem call_return_round_trip_witness :
    call_vm.program_counter = 0x202 ∧ call_vm.stack = [0x123] ∧
    ∃ s1 s2 s3, execute call_vm = some s1 ∧ fetch s1 = some s2 ∧ execute s2 = some s3 ∧
      s1.program_counter = call_vm.current_op.nnn ∧
      s1.stack = call_vm.program_counter :: call_vm.stack ∧
      s2.current_op = decode 0x00 0xEE ∧
      s3.program_counter = call_vm.program_counter ∧ s3.stack = call_vm.stack :=
  ⟨by decide, by decide,
   call_return_round_trip call_vm (by decide) (by decide) (by decide)⟩

/-! ## Unmatched words (C11) -/

/-- C11 (amended): for every decoded instruction of type 0 whose second byte is
neither 0xE0 nor 0xEE, of type 8 with n in 8..D or n = F, or of type C, E or F,
execute is a no-op: it returns the state it was given, so registers,
index_reg, program_counter, call stack, memory and framebuffer are unchanged. -/
theorem execute_unmatched_noop (s : vm)
    (h : (s.current_op.type = 0 ∧ s.current_op.nn ≠ 0xE0 ∧ s.current_op.nn ≠ 0xEE) ∨
      (s.current_op.type = 8 ∧
        ((8 ≤ s.current_op.n.val ∧ s.current_op.n.val ≤ 13) ∨ s.current_op.n.val = 15)) ∨
      s.current_op.type = 12 ∨ s.current_op.type = 14 ∨ s.current_op.type = 15) :
    execute s = some s := by
  rcases h with ⟨h0, hE0, hEE⟩ | ⟨h8, hn⟩ | hC | hE | hF
  · simp [execute, h0, hE0, hEE]
  · rw [execute_family8 s h8]
    have hcases : s.current_op.n.val = 8 ∨ s.current_op.n.val = 9 ∨ s.current_op.n.val = 10 ∨
        s.current_op.n.val = 11 ∨ s.current_op.n.val = 12 ∨ s.current_op.n.val = 13 ∨
        s.current_op.n.val = 15 := by omega
    rcases hcases with hv | hv | hv | hv | hv | hv | hv <;> simp [execute_logical, hv]
  · simp [execute, hC]
  · simp [execute, hE]
  · simp [execute, hF]

/-- Instance on the words 0x0123, 0x801A, 0xC0FF, 0xE09E and 0xF015, each executed
on a machine with a non-empty framebuffer, stack and registers. -/
theorem execute_unmatched_noop_witness :
    execute (op_vm 0x01 0x23 call_vm) = some (op_vm 0x01 0x23 call_vm) ∧
    execute (op_vm 0x80 0x1A (reg_vm 0 0 1 0 3 1 5)) = some (op_vm 0x80 0x1A (reg_vm 0 0 1 0 3 1 5)) ∧
    execute (op_vm 0xC0 0xFF call_vm) = some (op_vm 0xC0 0xFF call_vm) ∧
    execute (op_vm 0xE0 0x9E call_vm) = some (op_vm 0xE0 0x9E call_vm) ∧
    execute (op_vm 0xF0 0x15 call_vm) = some (op_vm 0xF0 0x15 call_vm) :=
  ⟨execute_unmatched_noop _ (Or.inl (by decide)),
   execute_unmatched_noop _ (Or.inr (Or.inl (by decide))),
   execute_unmatched_noop _ (Or.inr (Or.inr (Or.inl (by decide)))),
   execute_unmatched_noop _ (Or.inr (Or.inr (Or.inr (Or.inl (by decide))))),
   execute_unmatched_noop _ (Or.inr (Or.inr (Or.inr (Or.inr (by decide)))))⟩

/-- C11 fails for 5xyN and 9xyN with N other than 0: the dispatch on type 5 and
type 9 never looks at n.  The word 0x5011 with V[0] = V[1] = 7 and the word
0x9011 with V[0] = 3, V[1] = 5 both advance program_counter from 0 to 2. -/
theorem execute_5xyN_9xyN_skip :
    ((op_vm 0x50 0x11 (reg_vm 0 0 0 0 7 1 7)).current_op.n = 1 ∧
      (op_vm 0x50 0x11 (reg_vm 0 0 0 0 7 1 7)).program_counter = 0 ∧
      (execute (op_vm 0x50 0x11 (reg_vm 0 0 0 0 7 1 7))).map (fun s1 => s1.program_counter) =
        some 2) ∧
    ((op_vm 0x90 0x11 (reg_vm 0 0 0 0 3 1 5)).current_op.n = 1 ∧
      (op_vm 0x90 0x11 (reg_vm 0 0 0 0 3 1 5)).program_counter = 0 ∧
      (execute (op_vm 0x90 0x11 (reg_vm 0 0 0 0 3 1 5))).map (fun s1 => s1.program_counter) =
        some 2) := by
  decide

/-! ## `00E0`: clear the framebuffer (C12) -/

/-- C12: for every machine state, after executing 00E0 (type 0, second byte 0xE0)
every one of the 2048 framebuffer cells is 0, and registers, index_reg,
program_counter, call stack and memory are unchanged. -/
theorem execute_00E0_clears (s : vm) (h0 : s.current_op.type = 0)
    (hnn : s.current_op.nn = 0xE0) :
    ∃ s1, execute s = some s1 ∧ (∀ c : Fin 2048, s1.screen c = 0) ∧
      s1.V = s.V ∧ s1.index_reg = s.index_reg ∧ s1.program_counter = s.program_counter ∧
      s1.stack = s.stack ∧ s1.memory = s.memory := by
  refine ⟨{ s with screen := fun _ => 0 }, ?_, fun _ => rfl, rfl, rfl, rfl, rfl, rfl⟩
  simp [execute, h0, hnn]

/-- Instance on the word 0x00E0 executed on a machine whose framebuffer has cell 61
on, with a non-empty stack and memory. -/
theorem execute_00E0_clears_witness :
    (op_vm 0x00 0xE0 { call_vm with screen := fun c => if c.val = 61 then 1 else 0 }).screen 61
      = 1 ∧
    ∃ s1, execute (op_vm 0x00 0xE0
        { call_vm with screen := fun c => if c.val = 61 then 1 else 0 }) = some s1 ∧
      (∀ c : Fin 2048, s1.screen c = 0) ∧
      s1.V = (op_vm 0x00 0xE0
        { call_vm with screen := fun c => if c.val = 61 then 1 else 0 }).V ∧
      s1.index_reg = (op_vm 0x00 0xE0
        { call_vm with screen := fun c => if c.val = 61 then 1 else 0 }).index_reg ∧
      s1.program_counter = (op_vm 0x00 0xE0
        { call_vm with screen := fun c => if c.val = 61 then 1 else 0 }).program_counter ∧
      s1.stack = (op_vm 0x00 0xE0
        { call_vm with screen := fun c => if c.val = 61 then 1 else 0 }).stack ∧
      s1.memory = (op_vm 0x00 0xE0
        { call_vm with screen := fun c => if c.val = 61 then 1 else 0 }).memory :=
  ⟨by decide,
   execute_00E0_clears
     (op_vm 0x00 0xE0 { call_vm with screen := fun c => if c.val = 61 then 1 else 0 })
     (by decide) (by decide)⟩

/-! ## `7xnn`: add an immediate (C15) -/

/-- C15: for every machine state, register index x and immediate nn, executing 7xnn
sets V[x] to (V[x] + nn) mod 256 and changes nothing else: every other register
(V[15] included when x is not 15), index_reg, program_counter, call stack,
memory and framebuffer are unchanged. -/
theorem execute_7xnn_add (s : vm) (h7 : s.current_op.type = 7) :
    ∃ s1, execute s = some s1 ∧
      s1.V s.current_op.x = (s.V s.current_op.x + s.current_op.nn) % 256 ∧
      (∀ i : Fin 16, i ≠ s.current_op.x → s1.V i = s.V i) ∧
      s1.index_reg = s.index_reg ∧ s1.program_counter = s.program_counter ∧
      s1.stack = s.stack ∧ s1.memory = s.memory ∧ s1.screen = s.screen := by
  refine ⟨{ s with V := setV s.V s.current_op.x ((s.V s.current_op.x + s.current_op.nn) % 256) },
    ?_, setV_same _ _ _, fun i hi => setV_other _ _ _ _ hi, rfl, rfl, rfl, rfl, rfl⟩
  simp [execute, h7]

/-- Instance on the word 0x70FF with V[0] = 200 and V[15] = 1: the sum 455 wraps to
199 and V[15] keeps the value 1. -/
theorem execute_7xnn_add_witness :
    (reg_vm 0x70 0xFF 1 0 200 1 5).V 0 = 200 ∧ (reg_vm 0x70 0xFF 1 0 200 1 5).V 15 = 1 ∧
    ∃ s1, execute (reg_vm 0x70 0xFF 1 0 200 1 5) = some s1 ∧
      s1.V (reg_vm 0x70 0xFF 1 0 200 1 5).current_op.x =
        ((reg_vm 0x70 0xFF 1 0 200 1 5).V (reg_vm 0x70 0xFF 1 0 200 1 5).current_op.x +
          (reg_vm 0x70 0xFF 1 0 200 1 5).current_op.nn) % 256 ∧
      (∀ i : Fin 16, i ≠ (reg_vm 0x70 0xFF 1 0 200 1 5).current_op.x →
        s1.V i = (reg_vm 0x70 0xFF 1 0 200 1 5).V i) ∧
      s1.index_reg = (reg_vm 0x70 0xFF 1 0 200 1 5).index_reg ∧
      s1.program_counter = (reg_vm 0x70 0xFF 1 0 200 1 5).program_counter ∧
      s1.stack = (reg_vm 0x70 0xFF 1 0 200 1 5).stack ∧
      s1.memory = (reg_vm 0x70 0xFF 1 0 200 1 5).memory ∧
      s1.screen = (reg_vm 0x70 0xFF 1 0 200 1 5).screen :=
  ⟨by decide, by decide, execute_7xnn_add (reg_vm 0x70 0xFF 1 0 200 1 5) (by decide)⟩

/-! ## `00EE`: return (C13) -/

/-- C13 (amended): executing 00EE (type 0, second byte 0xEE) has a result exactly
when the call stack is non-empty; it then pops the top of the stack into
program_counter, as the checked return of the spec does.  (On an empty stack
the source's unchecked top/pop leaves the behaviour undefined.) -/
theorem execute_00EE_return (s : vm) (h0 : s.current_op.type = 0)
    (hnn : s.current_op.nn = 0xEE) :
    ((∃ s1, execute s = some s1) ↔ s.stack ≠ []) ∧
    (∀ top rest, s.stack = top :: rest →
      execute s = some { s with program_counter := top, stack := rest }) ∧
    (∀ s1, execute s = some s1 → checked_return_spec s = Except.ok s1) := by
  have hexec : execute s =
      match s.stack with
      | [] => none
      | top :: rest => some { s with program_counter := top, stack := rest } := by
    simp [execute, h0, hnn]
  rw [hexec]
  cases hs : s.stack with
  | nil => simp
  | cons top rest => simp [checked_return_spec, hs]

/-- Instance on the word 0x00EE executed with the call stack [0x123]. -/
theorem execute_00EE_return_witness :
    (op_vm 0x00 0xEE call_vm).stack = [0x123] ∧
    (((∃ s1, execute (op_vm 0x00 0xEE call_vm) = some s1) ↔
        (op_vm 0x00 0xEE call_vm).stack ≠ []) ∧
      (∀ top rest, (op_vm 0x00 0xEE call_vm).stack = top :: rest →
        execute (op_vm 0x00 0xEE call_vm) =
          some { op_vm 0x00 0xEE call_vm with program_counter := top, stack := rest }) ∧
      (∀ s1, execute (op_vm 0x00 0xEE call_vm) = some s1 →
        checked_return_spec (op_vm 0x00 0xEE call_vm) = Except.ok s1)) :=
  ⟨by decide, execute_00EE_return (op_vm 0x00 0xEE call_vm) (by decide) (by decide)⟩

/-- C13 fails on the source: for the word 0x00EE executed with an empty call stack
the checked return of the spec reports ExecutionFault, but `vm::execute` calls
`stack.top()` and `stack.pop()` unchecked, so the embedding has no result at
all there (undefined behaviour) and nothing is reported. -/
theorem execute_00EE_empty_stack_undefined :
    (op_vm 0x00 0xEE zero_vm).stack = [] ∧
    execute (op_vm 0x00 0xEE zero_vm) = none ∧
    checked_return_spec (op_vm 0x00 0xEE zero_vm) = Except.error Fault.ExecutionFault :=
  ⟨rfl, rfl, rfl⟩

/-! ## `8xyE`: shift left (C14) -/

theorem land_128 (a : Nat) : a &&& 0b10000000 = a / 128 % 2 * 128 := by
  have h := Nat.and_two_pow a 7
  rw [Nat.testBit_to_div_mod] at h
  have h128 : (2 : Nat) ^ 7 = 128 := rfl
  rw [h128] at h
  show a &&& 128 = a / 128 % 2 * 128
  rw [h]
  by_cases hb : a / 128 % 2 = 1
  · simp [hb]
  · have h0 : a / 128 % 2 = 0 := by omega
    simp [h0]

/-- C14: for every machine state and register index x, executing 8xyE sets V[15] to
V[x] AND 0x80 (0 or 128) from the value of V[x] before the shift and then
doubles V[x] modulo 256.  For x other than 15 the final registers are
V[15] = old V[x] AND 0x80 and V[x] = (2 * old V[x]) mod 256, with
2 * old V[x] = new V[x] + 2 * new V[15] for an 8-bit V[x] (with x = 15 both
stores hit V[15], which ends at 0); the other registers keep their values; V[y] is not read: storing any value in V[y] (y other than
x) beforehand changes no register other than V[y] in the result. -/
theorem execute_8xyE_shift_left (s : vm) (h8 : s.current_op.type = 8)
    (hE : s.current_op.n = 14) :
    ∃ s1, execute s = some s1 ∧
      (s.V s.current_op.x &&& 0x80 = 0 ∨ s.V s.current_op.x &&& 0x80 = 128) ∧
      s1.V = setV (setV s.V 15 (s.V s.current_op.x &&& 0x80)) s.current_op.x
        ((setV s.V 15 (s.V s.current_op.x &&& 0x80) s.current_op.x * 2) % 256) ∧
      (s.current_op.x ≠ 15 →
        s1.V 15 = s.V s.current_op.x &&& 0x80 ∧
        s1.V s.current_op.x = (2 * s.V s.current_op.x) % 256 ∧
        (s.V s.current_op.x < 256 → 2 * s.V s.current_op.x = s1.V s.current_op.x + 2 * s1.V 15)) ∧
      (s.current_op.x = 15 → s1.V 15 = 0) ∧
      (∀ i : Fin 16, i ≠ s.current_op.x → i ≠ 15 → s1.V i = s.V i) ∧
      (∀ v : Nat, s.current_op.y ≠ s.current_op.x →
        ∃ s2, execute { s with V := setV s.V s.current_op.y v } = some s2 ∧
          ∀ i : Fin 16, i ≠ s.current_op.y → s2.V i = s1.V i) := by
  have hV : ∀ t : vm, t.current_op.n = 14 → (execute_logical t).V =
      setV (setV t.V 15 (t.V t.current_op.x &&& 0x80)) t.current_op.x
        ((setV t.V 15 (t.V t.current_op.x &&& 0x80) t.current_op.x * 2) % 256) := by
    intro t ht
    simp [execute_logical, ht]
  have hflag := land_128 (s.V s.current_op.x)
  refine ⟨execute_logical s, execute_family8 s h8, ?_, hV s hE, ?_, ?_, ?_, ?_⟩
  · show s.V s.current_op.x &&& 0b10000000 = 0 ∨ s.V s.current_op.x &&& 0b10000000 = 128
    omega
  · intro hx
    have hx' : (15 : Fin 16) ≠ s.current_op.x := fun h => hx h.symm
    rw [hV s hE]
    refine ⟨?_, ?_, ?_⟩
    · rw [setV_other _ _ _ _ hx', setV_same]
    · rw [setV_same, setV_other _ _ _ _ hx, Nat.mul_comm]
    · intro hlt
      rw [setV_same, setV_other _ _ _ _ hx', setV_same, setV_other _ _ _ _ hx]
      have hflag' : s.V s.current_op.x &&& 0x80 = s.V s.current_op.x / 128 % 2 * 128 := hflag
      rw [hflag']
      omega
  · intro hx
    rw [hV s hE, hx, setV_same, setV_same]
    have hflag' : s.V 15 &&& 0x80 = s.V 15 / 128 % 2 * 128 := by
      have h := hflag
      rw [hx] at h
      exact h
    rw [hflag']
    omega
  · intro i hix hi15
    rw [hV s hE, setV_other _ _ _ _ hix, setV_other _ _ _ _ hi15]
  · intro v hyx
    refine ⟨execute_logical { s with V := setV s.V s.current_op.y v },
      execute_family8 _ h8, ?_⟩
    intro i hiy
    have h2 := hV { s with V := setV s.V s.current_op.y v } hE
    rw [h2, hV s hE]
    show setV (setV (setV s.V s.current_op.y v) 15
        (setV s.V s.current_op.y v s.current_op.x &&& 0x80)) s.current_op.x
        ((setV (setV s.V s.current_op.y v) 15
          (setV s.V s.current_op.y v s.current_op.x &&& 0x80) s.current_op.x * 2) % 256) i = _
    have hxy : s.current_op.x ≠ s.current_op.y := fun h => hyx h.symm
    simp only [setV, hxy, hiy, if_false]

/-- Instance on the word 0x801E with V[0] = 129: the flag becomes 128 and V[0]
becomes 2, and 2 * 129 = 2 + 2 * 128. -/
theorem execute_8xyE_shift_left_witness :
    (reg_vm 0x80 0x1E 0 0 129 1 5).V 0 = 129 ∧
    ∃ s1, execute (reg_vm 0x80 0x1E 0 0 129 1 5) = some s1 ∧
      s1.V 15 = 128 ∧ s1.V 0 = 2 ∧ 2 * 129 = s1.V 0 + 2 * s1.V 15 ∧ s1.V 1 = 5 := by
  obtain ⟨s1, h1, -, -, hx, -, hframe, -⟩ :=
    execute_8xyE_shift_left (reg_vm 0x80 0x1E 0 0 129 1 5) (by decide) (by decide)
  obtain ⟨hf, hv, hrel⟩ := hx (by decide)
  have hf' : s1.V 15 = 128 := hf.trans (by decide)
  have hv' : s1.V 0 = 2 := hv.trans (by decide)
  have h5 : s1.V 1 = 5 := (hframe 1 (by decide) (by decide)).trans (by decide)
  refine ⟨by decide, s1, h1, hf', hv', ?_, h5⟩
  rw [hf', hv']

/-! ## The decoder and `vm::fetch` (C16) -/

/-- C16: the decoder is a total function, and for every pair of bytes b0, b1 its
fields are type = b0 div 16, x = b0 mod 16, y = b1 div 16, n = b1 mod 16,
nn = b1 = 16*y + n, nnn = 256*x + nn = (256*b0 + b1) mod 4096, so that
4096*type + nnn is the 16-bit word, type, x, y, n < 16 and nnn < 4096; and in
a state whose memory holds b0, b1 at program_counter, fetch stores exactly
decode b0 b1, advances program_counter by 2 and changes nothing else. -/
theorem decode_fields_and_fetch (s : vm) (b0 b1 : Nat) (hb0 : b0 < 256) (hb1 : b1 < 256) :
    ((decode b0 b1).type.val = b0 / 16 ∧ (decode b0 b1).x.val = b0 % 16 ∧
      (decode b0 b1).y.val = b1 / 16 ∧ (decode b0 b1).n.val = b1 % 16 ∧
      (decode b0 b1).nn = b1 ∧
      (decode b0 b1).nn = 16 * (decode b0 b1).y.val + (decode b0 b1).n.val ∧
      (decode b0 b1).nnn = 256 * (decode b0 b1).x.val + (decode b0 b1).nn ∧
      (decode b0 b1).nnn = (256 * b0 + b1) % 4096 ∧
      4096 * (decode b0 b1).type.val + (decode b0 b1).nnn = 256 * b0 + b1 ∧
      (decode b0 b1).type.val < 16 ∧ (decode b0 b1).x.val < 16 ∧
      (decode b0 b1).y.val < 16 ∧ (decode b0 b1).n.val < 16 ∧
      (decode b0 b1).nnn < 4096) ∧
    (read s.memory s.program_counter = some b0 →
      read s.memory (s.program_counter + 1) = some b1 →
      ∃ s1, fetch s = some s1 ∧ s1.current_op = decode b0 b1 ∧
        s1.program_counter = s.program_counter + 2 ∧
        s1.memory = s.memory ∧ s1.V = s.V ∧ s1.index_reg = s.index_reg ∧
        s1.stack = s.stack ∧ s1.screen = s.screen) := by
  constructor
  · dsimp only [decode]
    refine ⟨?_, ?_, ?_, ?_, ?_, ?_, ?_, ?_, ?_, ?_, ?_, ?_, ?_, ?_⟩ <;> omega
  · intro h0 h1
    have hpc : s.program_counter + 1 < 4096 := by
      by_contra hge
      simp [read, hge] at h1
    have hmod : (s.program_counter + 2) % 65536 = s.program_counter + 2 :=
      Nat.mod_eq_of_lt (by omega)
    refine ⟨{ s with current_op := decode b0 b1
                     program_counter := (s.program_counter + 2) % 65536 },
      ?_, rfl, hmod, rfl, rfl, rfl, rfl, rfl⟩
    simp [fetch, h0, h1]

/-- Instance on the bytes 0x00, 0xEE stored at addresses 0x300 and 0x301, fetched
with program_counter = 0x300. -/
theorem decode_fields_and_fetch_witness :
    (decode 0x00 0xEE).type.val = 0 ∧ (decode 0x00 0xEE).nn = 0xEE ∧
    (decode 0x00 0xEE).nnn = 0xEE ∧
    ∃ s1, fetch { call_vm with program_counter := 0x300 } = some s1 ∧
      s1.current_op = decode 0x00 0xEE ∧ s1.program_counter = 0x302 := by
  obtain ⟨⟨ht, -, -, -, hnn, -, -, hnnn, -⟩, hfetch⟩ :=
    decode_fields_and_fetch { call_vm with program_counter := 0x300 } 0x00 0xEE
      (by decide) (by decide)
  obtain ⟨s1, h1, hop, hpc, -⟩ := hfetch (by decide) (by decide)
  exact ⟨ht, hnn, hnnn.trans (by decide), s1, h1, hop, hpc⟩

/-! ## `Dxyn`: the vertical check (C17) -/

theorem draw_screen_eq (s : vm) (c : Fin 2048) :
    ((sprite_cells (s.V s.current_op.x) (s.V s.current_op.y) (sprite_byte s)
        (List.range s.current_op.n.val)).foldl toggle { s with V := setV s.V 0xF 0 }).screen c =
      if c ∈ sprite_cells (s.V s.current_op.x) (s.V s.current_op.y) (sprite_byte s)
        (List.range s.current_op.n.val) then s.screen c ^^^ 1 else s.screen c := by
  rw [foldl_toggle_screen, count_sprite_cells s c]
  by_cases hc : c ∈ sprite_cells (s.V s.current_op.x) (s.V s.current_op.y) (sprite_byte s)
      (List.range s.current_op.n.val)
  · simp [hc]
  · simp [hc]

/-- C17: for every machine state with V[y] >= 32, executing Dxyn draws nothing: the
framebuffer is unchanged and V[15] = 0.  When V[y] < 32 (the n sprite bytes
inside the memory) every one of the n rows is drawn, whatever V[y] + row is:
each set bit b of row r flips the cell at flat index
((V[x] + b) + 64 * (V[y] + r)) mod 2048. -/
theorem draw_vertical_check (s : vm) (hD : s.current_op.type = 13) :
    (32 ≤ s.V s.current_op.y →
      ∃ s1, execute s = some s1 ∧ s1.screen = s.screen ∧ s1.V 15 = 0) ∧
    (s.V s.current_op.y < 32 →
      (∀ r, r < s.current_op.n.val → s.index_reg + r < 4096) →
      ∃ s1, execute s = some s1 ∧
        ∀ (r b v : Nat) (c : Fin 2048), r < s.current_op.n.val → b < 8 →
          read s.memory (s.index_reg + r) = some v → v.testBit (7 - b) = true →
          c.val = ((s.V s.current_op.x + b) + 64 * (s.V s.current_op.y + r)) % 2048 →
          s1.screen c = s.screen c ^^^ 1) := by
  constructor
  · intro hy
    exact ⟨_, (execute_draw s hD).trans (draw_eq_of_ge s hy), rfl, setV_same s.V 15 0⟩
  · intro hy hmem
    refine ⟨_, (execute_draw s hD).trans (draw_eq s hy hmem), ?_⟩
    intro r b v c hr hb hv hbit hc
    have hcov : covered s c := ⟨r, b, v, hr, hb, hv, hbit, hc⟩
    rw [draw_screen_eq s c, if_pos ((covered_iff_mem s hmem c).mp hcov)]

/-- Instance on the draw 0xD011 at V[1] = 32 over a framebuffer with cell 61 on
(nothing drawn), and on the draw 0xD012 at V[1] = 31 of two rows 0xFF: row 1
falls on V[1] + 1 = 32 and flips the cells 0..7 at the top of the buffer. -/
theorem draw_vertical_check_witness :
    (∃ s1, execute (draw_vm 0x11 0 32 0xFF (fun c => if c.val = 61 then 1 else 0)) = some s1 ∧
      s1.screen = (draw_vm 0x11 0 32 0xFF (fun c => if c.val = 61 then 1 else 0)).screen ∧
      s1.V 15 = 0) ∧
    (tall_vm.V tall_vm.current_op.y = 31 ∧
      ∃ s1, execute tall_vm = some s1 ∧ s1.screen 0 = 1 ∧ s1.screen 7 = 1 ∧
        s1.screen 1984 = 1) := by
  refine ⟨(draw_vertical_check _ (by decide)).1 (by decide), by decide, ?_⟩
  obtain ⟨s1, h1, h2⟩ := (draw_vertical_check tall_vm (by decide)).2 (by decide) (by decide)
  refine ⟨s1, h1, ?_, ?_, ?_⟩
  · exact h2 1 0 0xFF 0 (by decide) (by decide) (by decide) (by decide) (by decide)
  · exact h2 1 7 0xFF 7 (by decide) (by decide) (by decide) (by decide) (by decide)
  · exact h2 0 0 0xFF 1984 (by decide) (by decide) (by decide) (by decide) (by decide)

/-! ## The framebuffer holds bits (C18) -/

theorem xor_one_le_one (a : Nat) (h : a ≤ 1) : a ^^^ 1 ≤ 1 := by
  have h01 : a = 0 ∨ a = 1 := by omega
  rcases h01 with h0 | h1
  · rw [h0]; decide
  · rw [h1]; decide

theorem toggle_bits (s : vm) (c0 : Fin 2048)
    (h : (∀ c, s.screen c ≤ 1) ∧ s.V 15 ≤ 1) :
    (∀ c, (toggle s c0).screen c ≤ 1) ∧ (toggle s c0).V 15 ≤ 1 := by
  constructor
  · intro c
    show (if c = c0 then s.screen c ^^^ 1 else s.screen c) ≤ 1
    split
    · exact xor_one_le_one _ (h.1 c)
    · exact h.1 c
  · show setV s.V 0xF (s.screen c0) 15 ≤ 1
    rw [setV_same]
    exact h.1 c0

theorem foldl_draw_pixel_bits (x_coord y_coord byte sprite : Nat) (bs : List Nat) (s : vm)
    (h : (∀ c, s.screen c ≤ 1) ∧ s.V 15 ≤ 1) :
    (∀ c, (bs.foldl (draw_pixel x_coord y_coord byte sprite) s).screen c ≤ 1) ∧
      (bs.foldl (draw_pixel x_coord y_coord byte sprite) s).V 15 ≤ 1 := by
  induction bs generalizing s with
  | nil => exact h
  | cons b bs ih =>
    rw [List.foldl_cons]
    apply ih
    rw [draw_pixel_eq]
    split
    · exact toggle_bits s _ h
    · exact h

theorem draw_rows_bits (x_coord y_coord : Nat) (k byte : Nat) (s s1 : vm)
    (h : (∀ c, s.screen c ≤ 1) ∧ s.V 15 ≤ 1)
    (hrun : draw_rows x_coord y_coord k byte s = some s1) :
    (∀ c, s1.screen c ≤ 1) ∧ s1.V 15 ≤ 1 := by
  induction k generalizing byte s with
  | zero =>
    simp only [draw_rows, Option.some.injEq] at hrun
    rw [← hrun]
    exact h
  | succ k ih =>
    rw [draw_rows] at hrun
    split at hrun
    · simp only [Option.some.injEq] at hrun
      rw [← hrun]
      exact h
    · split at hrun
      · exact absurd hrun (by simp)
      · exact ih _ _ (foldl_draw_pixel_bits _ _ _ _ _ s h) hrun

theorem execute_logical_frame (s : vm) :
    (execute_logical s).screen = s.screen ∧ (execute_logical s).memory = s.memory ∧
    (execute_logical s).index_reg = s.index_reg ∧
    (execute_logical s).program_counter = s.program_counter ∧
    (execute_logical s).stack = s.stack ∧ (execute_logical s).current_op = s.current_op := by
  unfold execute_logical
  split <;> (try dsimp only) <;> (try split) <;> exact ⟨rfl, rfl, rfl, rfl, rfl, rfl⟩

theorem execute_screen (s s1 : vm) (h : execute s = some s1)
    (hD : s.current_op.type ≠ 13) :
    s1.screen = s.screen ∨ s1.screen = fun _ => 0 := by
  have hD' : s.current_op.type.val ≠ 13 := fun hv => hD (Fin.ext hv)
  unfold execute at h
  split at h
  all_goals (try dsimp only at h)
  all_goals (try split at h)
  all_goals (try split at h)
  all_goals (try split at h)
  all_goals first
    | exact absurd ‹s.current_op.type.val = 13› hD'
    | exact Option.noConfusion h
    | exact Or.inl ((congrArg vm.screen (Option.some.inj h)).symm.trans
        (execute_logical_frame s).1)
    | exact Or.inl (congrArg vm.screen (Option.some.inj h)).symm
    | exact Or.inr (congrArg vm.screen (Option.some.inj h)).symm

/-- C18: if every framebuffer cell is 0 or 1 before an instruction is executed, then
every cell is 0 or 1 afterwards (the framebuffer is a function on the 2048
cell indices throughout), and V[15] after any Dxyn is 0 or 1; fetch leaves
the framebuffer alone, so the same holds for a whole step. -/
theorem execute_keeps_bits (s s1 : vm) (hbits : ∀ c, s.screen c = 0 ∨ s.screen c = 1)
    (h : execute s = some s1) :
    (∀ c : Fin 2048, s1.screen c = 0 ∨ s1.screen c = 1) ∧
    (s.current_op.type = 13 → (s1.V 15 = 0 ∨ s1.V 15 = 1)) ∧
    (∀ t, fetch t = some s → tick t = some s1 ∧ t.screen = s.screen) := by
  have hle : ∀ c, s.screen c ≤ 1 := fun c => by have := hbits c; omega
  have hdraw : s.current_op.type = 13 → (∀ c, s1.screen c ≤ 1) ∧ s1.V 15 ≤ 1 := by
    intro hD
    rw [execute_draw s hD, draw] at h
    have h0 : (∀ c, ({ s with V := setV s.V 0xF 0 } : vm).screen c ≤ 1) ∧
        ({ s with V := setV s.V 0xF 0 } : vm).V 15 ≤ 1 := by
      refine ⟨hle, ?_⟩
      show setV s.V 0xF 0 15 ≤ 1
      rw [setV_same]
      exact Nat.zero_le 1
    exact draw_rows_bits _ _ _ _ _ s1 h0 h
  refine ⟨?_, ?_, ?_⟩
  · intro c
    by_cases hD : s.current_op.type = 13
    · have := (hdraw hD).1 c
      omega
    · rcases execute_screen s s1 h hD with hs | hs
      · rw [hs]; exact hbits c
      · rw [hs]; exact Or.inl rfl
  · intro hD
    have := (hdraw hD).2
    omega
  · intro t ht
    refine ⟨by simp [tick, ht, h], ?_⟩
    unfold fetch at ht
    split at ht
    · rw [← Option.some.inj ht]
    · exact Option.noConfusion ht

/-- Instance on the draw 0xD011 of the sprite 0xFF at (60, 0) onto a framebuffer with
cell 61 on. -/
theorem execute_keeps_bits_witness :
    ∃ s1, execute (draw_vm 0x11 60 0 0xFF (fun c => if c.val = 61 then 1 else 0)) = some s1 ∧
      (∀ c : Fin 2048, s1.screen c = 0 ∨ s1.screen c = 1) ∧ (s1.V 15 = 0 ∨ s1.V 15 = 1) := by
  have hsome : ∃ s1,
      execute (draw_vm 0x11 60 0 0xFF (fun c => if c.val = 61 then 1 else 0)) = some s1 :=
    ⟨_, (execute_draw _ (by decide)).trans (draw_eq _ (by decide) (by decide))⟩
  obtain ⟨s1, h1⟩ := hsome
  have hbits : ∀ c : Fin 2048,
      (draw_vm 0x11 60 0 0xFF (fun c => if c.val = 61 then 1 else 0)).screen c = 0 ∨
      (draw_vm 0x11 60 0 0xFF (fun c => if c.val = 61 then 1 else 0)).screen c = 1 := by
    intro c
    show (if c.val = 61 then 1 else 0) = 0 ∨ (if c.val = 61 then 1 else 0) = 1
    by_cases hc : c.val = 61
    · right; simp [hc]
    · left; simp [hc]
  obtain ⟨h2, h3, -⟩ := execute_keeps_bits _ s1 hbits h1
  exact ⟨s1, h1, h2, h3 (by decide)⟩

/-! ## Program-counter parity (C19) -/

theorem draw_defined_pc (s : vm)
    (hdraw : s.V s.current_op.y < 32 →
      ∀ r, r < s.current_op.n.val → s.index_reg + r < 4096) :
    ∃ s1, draw s = some s1 ∧ s1.program_counter = s.program_counter := by
  by_cases hy : s.V s.current_op.y < 32
  · exact ⟨_, draw_eq s hy (hdraw hy), (foldl_toggle_frame _ _).2.2.1⟩
  · exact ⟨_, draw_eq_of_ge s (Nat.le_of_not_lt hy), rfl⟩

theorem execute_pc (s : vm) (h1 : s.current_op.type ≠ 1) (h2 : s.current_op.type ≠ 2)
    (hB : s.current_op.type ≠ 11)
    (hret : ¬ (s.current_op.type = 0 ∧ s.current_op.nn = 0xEE))
    (hdraw : s.current_op.type = 13 → s.V s.current_op.y < 32 →
      ∀ r, r < s.current_op.n.val → s.index_reg + r < 4096) :
    ∃ s1, execute s = some s1 ∧
      (skip_taken s → s1.program_counter = (s.program_counter + 2) % 65536) ∧
      (¬ skip_taken s → s1.program_counter = s.program_counter) := by
  obtain ⟨ty, htype⟩ : ∃ ty, s.current_op.type = ty := ⟨_, rfl⟩
  fin_cases ty
  all_goals try (simp [execute, htype, skip_taken]; done)
  · by_cases hE0 : s.current_op.nn = 0xE0
    · simp [execute, htype, hE0, skip_taken]
    · have hEE : s.current_op.nn ≠ 0xEE := fun h => hret ⟨htype, h⟩
      simp [execute, htype, hE0, hEE, skip_taken]
  · exact absurd htype h1
  · exact absurd htype h2
  · by_cases hc : s.V s.current_op.x = s.current_op.nn <;>
      simp [execute, htype, skip_taken, hc]
  · by_cases hc : s.V s.current_op.x = s.current_op.nn <;>
      simp [execute, htype, skip_taken, hc]
  · by_cases hc : s.V s.current_op.x = s.V s.current_op.y <;>
      simp [execute, htype, skip_taken, hc]
  · have hnt : ¬ skip_taken s := by simp [skip_taken, htype]
    exact ⟨_, execute_family8 s htype, fun h => absurd h hnt,
      fun _ => (execute_logical_frame s).2.2.2.1⟩
  · by_cases hc : s.V s.current_op.x = s.V s.current_op.y <;>
      simp [execute, htype, skip_taken, hc]
  · exact absurd htype hB
  · have hnt : ¬ skip_taken s := by simp [skip_taken, htype]
    obtain ⟨s1, hs1, hpc⟩ := draw_defined_pc s (hdraw htype)
    exact ⟨s1, (execute_draw s htype).trans hs1, fun h => absurd h hnt, fun _ => hpc⟩

theorem fetch_pc (s s0 : vm) (hf : fetch s = some s0) :
    s0.program_counter = (s.program_counter + 2) % 65536 := by
  unfold fetch at hf
  split at hf
  · rw [← Option.some.inj hf]
  · exact Option.noConfusion hf

/-- C19 (amended): for every machine state with an even program_counter p whose
fetch is defined, and every fetched instruction other than 1nnn, 2nnn, 00EE
and Bnnn (a fetched draw reading its sprite inside the memory), one step
(fetch then execute) is defined and leaves program_counter even: it is p + 4
modulo 2^16 when the fetched instruction is a taken skip 3xnn, 4xnn, 5xyN or
9xyN (any N, not only N = 0) and p + 2 modulo 2^16 otherwise. -/
theorem tick_pc_parity (s s0 : vm) (hf : fetch s = some s0)
    (heven : s.program_counter % 2 = 0)
    (h1 : s0.current_op.type ≠ 1) (h2 : s0.current_op.type ≠ 2)
    (hB : s0.current_op.type ≠ 11)
    (hret : ¬ (s0.current_op.type = 0 ∧ s0.current_op.nn = 0xEE))
    (hdraw : s0.current_op.type = 13 → s0.V s0.current_op.y < 32 →
      ∀ r, r < s0.current_op.n.val → s0.index_reg + r < 4096) :
    ∃ s1, tick s = some s1 ∧ s1.program_counter % 2 = 0 ∧
      (skip_taken s0 → s1.program_counter = (s.program_counter + 4) % 65536) ∧
      (¬ skip_taken s0 → s1.program_counter = (s.program_counter + 2) % 65536) := by
  obtain ⟨s1, he, htaken, hnot⟩ := execute_pc s0 h1 h2 hB hret hdraw
  have hpc0 := fetch_pc s s0 hf
  have htick : tick s = some s1 := by simp [tick, hf, he]
  refine ⟨s1, htick, ?_, ?_, ?_⟩
  · by_cases ht : skip_taken s0
    · rw [htaken ht, hpc0]; omega
    · rw [hnot ht, hpc0]; omega
  · intro ht
    rw [htaken ht, hpc0]; omega
  · intro ht
    rw [hnot ht, hpc0]

/-- Instance on the word 0x3000 fetched from 0x200 with V[0] = 0 (a taken skip:
program_counter 0x200 becomes 0x204) and on the word 0x6007 fetched from 0x200
(program_counter becomes 0x202). -/
theorem tick_pc_parity_witness :
    (fetch_vm 0x30 0x00).program_counter = 0x200 ∧
    (∃ s1, tick (fetch_vm 0x30 0x00) = some s1 ∧ s1.program_counter % 2 = 0 ∧
      s1.program_counter = 0x204) ∧
    (∃ s1, tick (fetch_vm 0x60 0x07) = some s1 ∧ s1.program_counter % 2 = 0 ∧
      s1.program_counter = 0x202) := by
  have hf1 : fetch (fetch_vm 0x30 0x00) =
      some { fetch_vm 0x30 0x00 with current_op := decode 0x30 0x00
                                     program_counter := 0x202 } := by
    rfl
  have hf2 : fetch (fetch_vm 0x60 0x07) =
      some { fetch_vm 0x60 0x07 with current_op := decode 0x60 0x07
                                     program_counter := 0x202 } := by
    rfl
  obtain ⟨s1, ht1, hev1, htaken, -⟩ :=
    tick_pc_parity (fetch_vm 0x30 0x00) _ hf1 (by decide) (by decide) (by decide) (by decide)
      (by decide) (by decide)
  obtain ⟨s2, ht2, hev2, -, hnot⟩ :=
    tick_pc_parity (fetch_vm 0x60 0x07) _ hf2 (by decide) (by decide) (by decide) (by decide)
      (by decide) (by decide)
  refine ⟨by decide, ⟨s1, ht1, hev1, ?_⟩, ⟨s2, ht2, hev2, ?_⟩⟩
  · exact (htaken (Or.inl ⟨by decide, by decide⟩)).trans (by decide)
  · refine (hnot ?_).trans (by decide)
    rintro (⟨h, -⟩ | ⟨h, -⟩ | ⟨h, -⟩ | ⟨h, -⟩) <;> exact absurd h (by decide)

/-- C19 fails for 5xyN and 9xyN with N other than 0, which are not among the skips
3xnn/4xnn/5xy0/9xy0 of the claim: the word 0x5011 fetched from the even address
0x200 with V[0] = V[1] = 0, and the word 0x9011 fetched from 0x200 with
V[0] = 1, V[1] = 0, both end the step with program_counter = 0x204 (p + 4),
not 0x202 (p + 2). -/
theorem tick_5xyN_9xyN_skips :
    ((fetch_vm 0x50 0x11).program_counter = 0x200 ∧
      (fetch (fetch_vm 0x50 0x11)).map
        (fun s0 => (s0.current_op.type, s0.current_op.n, s0.V 0, s0.V 1)) = some (5, 1, 0, 0) ∧
      (tick (fetch_vm 0x50 0x11)).map (fun s1 => s1.program_counter) = some 0x204 ∧
      (tick (fetch_vm 0x50 0x11)).map (fun s1 => s1.program_counter) ≠ some (0x200 + 2)) ∧
    (({ fetch_vm 0x90 0x11 with V := setV zero_vm.V 0 1 } : vm).program_counter = 0x200 ∧
      (fetch { fetch_vm 0x90 0x11 with V := setV zero_vm.V 0 1 }).map
        (fun s0 => (s0.current_op.type, s0.current_op.n, s0.V 0, s0.V 1)) = some (9, 1, 1, 0) ∧
      (tick { fetch_vm 0x90 0x11 with V := setV zero_vm.V 0 1 }).map
        (fun s1 => s1.program_counter) = some 0x204 ∧
      (tick { fetch_vm 0x90 0x11 with V := setV zero_vm.V 0 1 }).map
        (fun s1 => s1.program_counter) ≠ some (0x200 + 2)) := by
  decide

/-! ## Sprites do not overlap themselves (C20) -/

theorem lit_eq_testBit (v b : Nat) (hb : b < 8) : lit v b = v.testBit (7 - b) := by
  rw [Bool.eq_iff_iff]
  exact lit_iff_testBit v b hb

theorem countP_lit (v : Nat) : (List.range 8).countP (fun b => lit v b) = ones v := by
  have hr : List.range 8 = [0, 1, 2, 3, 4, 5, 6, 7] := by decide
  unfold ones
  rw [hr]
  simp only [List.countP_cons, List.countP_nil]
  rw [lit_eq_testBit v 0 (by decide), lit_eq_testBit v 1 (by decide),
    lit_eq_testBit v 2 (by decide), lit_eq_testBit v 3 (by decide),
    lit_eq_testBit v 4 (by decide), lit_eq_testBit v 5 (by decide),
    lit_eq_testBit v 6 (by decide), lit_eq_testBit v 7 (by decide)]
  simp only [Nat.sub_self, Nat.sub_zero, Nat.reduceSub]
  omega

theorem length_row_cells (rowbyte : Nat → Nat) (r : Nat) :
    (((List.range 8).map (Prod.mk r)).filter (fun p => lit (rowbyte p.1) p.2)).length =
      ones (rowbyte r) := by
  rw [List.filter_map, List.length_map, ← List.countP_eq_length_filter]
  exact countP_lit (rowbyte r)

theorem length_sprite_cells (x_coord y_coord : Nat) (rowbyte : Nat → Nat) (rows : List Nat) :
    (sprite_cells x_coord y_coord rowbyte rows).length =
      (rows.map (fun r => ones (rowbyte r))).sum := by
  induction rows with
  | nil => simp [sprite_cells]
  | cons r rows ih =>
    rw [sprite_cells_cons, List.length_append, ih, List.length_map, length_row_cells,
      List.map_cons, List.sum_cons]

theorem foldl_toggle_flag_off (cells : List (Fin 2048)) (s : vm) (hnodup : cells.Nodup)
    (hoff : ∀ c, c ∈ cells → s.screen c = 0) (hflag : s.V 15 = 0) :
    (cells.foldl toggle s).V 15 = 0 := by
  rcases List.eq_nil_or_concat cells with h0 | ⟨front, c, hconcat⟩
  · rw [h0]
    exact hflag
  · rw [List.concat_eq_append] at hconcat
    subst hconcat
    have hc_front : c ∉ front := fun hmemc =>
      (List.nodup_append.mp hnodup).2.2 hmemc (List.mem_singleton_self c)
    rw [foldl_toggle_flag, foldl_toggle_screen, List.count_eq_zero_of_not_mem hc_front]
    simpa using hoff c (by simp)

/-- C20: for every V[x], V[y] and n <= 15, distinct (row, bit) pairs with row < n
and bit < 8 map to distinct flat indices
((V[x] + bit) + 64 * (V[y] + row)) mod 2048.  Hence, with V[y] < 32 and the n
sprite bytes inside the memory, drawing with Dxyn onto an all-zero
framebuffer leaves V[15] = 0 and leaves exactly as many cells on as there are
1 bits in the n sprite bytes memory[index_reg .. index_reg + n - 1]. -/
theorem draw_on_empty_screen (s : vm) (hD : s.current_op.type = 13)
    (hy : s.V s.current_op.y < 32)
    (hmem : ∀ r, r < s.current_op.n.val → s.index_reg + r < 4096)
    (hzero : ∀ c, s.screen c = 0) :
    s.current_op.n.val ≤ 15 ∧
    (∀ r1 b1 r2 b2 : Nat, r1 < s.current_op.n.val → r2 < s.current_op.n.val → b1 < 8 → b2 < 8 →
      ((s.V s.current_op.x + b1) + 64 * (s.V s.current_op.y + r1)) % 2048 =
        ((s.V s.current_op.x + b2) + 64 * (s.V s.current_op.y + r2)) % 2048 →
      r1 = r2 ∧ b1 = b2) ∧
    ∃ s1, execute s = some s1 ∧ s1.V 15 = 0 ∧
      (∀ c, s1.screen c = 0 ∨ s1.screen c = 1) ∧
      (Finset.univ.filter (fun c : Fin 2048 => s1.screen c = 1)).card = sprite_ones s := by
  have hn := s.current_op.n.isLt
  have hnodup := nodup_sprite_cells (s.V s.current_op.x) (s.V s.current_op.y) (sprite_byte s)
    s.current_op.n.val (Nat.le_of_lt hn)
  refine ⟨by omega, ?_, _, (execute_draw s hD).trans (draw_eq s hy hmem), ?_, ?_, ?_⟩
  · intro r1 b1 r2 b2 hr1 hr2 hb1 hb2 h
    omega
  · apply foldl_toggle_flag_off _ _ hnodup
    · intro c _
      exact hzero c
    · exact setV_same s.V 15 0
  · intro c
    rw [draw_screen_eq s c, hzero c]
    split
    · right; rfl
    · left; rfl
  · have hfilter : Finset.univ.filter (fun c : Fin 2048 =>
        ((sprite_cells (s.V s.current_op.x) (s.V s.current_op.y) (sprite_byte s)
          (List.range s.current_op.n.val)).foldl toggle
            { s with V := setV s.V 0xF 0 }).screen c = 1) =
        (sprite_cells (s.V s.current_op.x) (s.V s.current_op.y) (sprite_byte s)
          (List.range s.current_op.n.val)).toFinset := by
      ext c
      rw [Finset.mem_filter, List.mem_toFinset, draw_screen_eq s c, hzero c]
      by_cases hc : c ∈ sprite_cells (s.V s.current_op.x) (s.V s.current_op.y) (sprite_byte s)
          (List.range s.current_op.n.val)
      · simp [hc]
      · simp [hc]
    rw [hfilter, List.toFinset_card_of_nodup hnodup, length_sprite_cells]
    rfl

/-- Instance on the draw 0xD011 of the sprite 0xFF at (60, 0) onto the empty
framebuffer: V[15] = 0 and eight cells are on afterwards. -/
theorem draw_on_empty_screen_witness :
    sprite_ones (draw_vm 0x11 60 0 0xFF (fun _ => 0)) = 8 ∧
    ∃ s1, execute (draw_vm 0x11 60 0 0xFF (fun _ => 0)) = some s1 ∧ s1.V 15 = 0 ∧
      (Finset.univ.filter (fun c : Fin 2048 => s1.screen c = 1)).card = 8 := by
  have hones : sprite_ones (draw_vm 0x11 60 0 0xFF (fun _ => 0)) = 8 := by decide
  obtain ⟨-, -, s1, h1, hflag, -, hcard⟩ :=
    draw_on_empty_screen (draw_vm 0x11 60 0 0xFF (fun _ => 0)) (by decide) (by decide)
      (by decide) (fun _ => rfl)
  exact ⟨hones, s1, h1, hflag, hcard.trans hones⟩

end chip8
